import Mathlib

/-!
# Polynomial fitting by stochastic gradient descent (`exercise.01/main.go`)

A shallow embedding of the numeric core of `exercise.01/main.go`.

Modelling conventions.

* `float64` is modelled by an arbitrary field `α` with exact arithmetic (the theorems
  take it linearly ordered where an order or `2 ≠ 0` is needed).  Rounding, infinities
  and NaN are not modelled, and a division by zero yields `0`, as everywhere in Mathlib;
  all definitions are computable and can be evaluated at `ℚ`.
* Where overflow and NaN decide (the sign of the error), the error metric and the
  training loop are translated a second time over `F64`, the rationals up to the largest
  finite `float64` together with `+Inf`, `-Inf` and NaN; rounding, underflow and the
  sign of zero stay out of that model too.
* `int` is modelled by `Int`, and `polynomialDegree + 1` is computed without overflow;
  statements about every `int` degree are restricted to `-2^63 ≤ D < 2^63 - 1`.
* `math.Pow(x, float64(j))` for a loop index `j` is `x ^ j` with a natural exponent, so
  that `x ^ 0 = 1` for every `x`, as in Go.
* `math.Sqrt`, `math.Sin` and `math.Pi` are parameters (`sqrt`, `sin`, `pi`).
* `simple.RandFloat low high` reads and advances the process-wide generator.  It lives
  in the package `simple`, outside `exercise.01`, so the random source is a parameter
  `rand : α → α → σ → α × σ` threading the generator state `σ` explicitly.
* Go slices are lists; `make(T, n)` is `List.replicate n 0`, `s[i] = v` is `List.set`.
  `make` with a negative length panics, which is modelled by `none`.
* The string fields `Name` and `FunctionStr` of `SGDExport` are formatting only and
  are left out.
-/

namespace SGD

/-- Point Struct. -/
structure Point (α : Type) where
  X : α
  Y : α
deriving DecidableEq, Repr

/-- A dataset: `type Points []Point`. -/
abbrev Points (α : Type) := List (Point α)

/-- The constant `iterations` of the source. -/
def iterations : Nat := 5000

/-- The record `SGDExport` (without its two string fields). -/
structure SGDExport (α : Type) where
  Thetas : List α
  Iterations : Nat
  PolynomialDegree : Int
  LearnRate : α
  XPoints : List α
  YPoints : List α
  Error : List α
deriving DecidableEq, Repr

section Defs

variable {α : Type} [Field α] {σ : Type}

/-- The method `getXY`: the X and Y arrays of a point list, filled index by index. -/
def Points.getXY (points : Points α) : List α × List α :=
  (List.range points.length).foldl
    (fun acc inx =>
      let point := points.getD inx ⟨0, 0⟩
      (acc.1.set inx point.X, acc.2.set inx point.Y))
    (List.replicate points.length 0, List.replicate points.length 0)

/-- The function `hypotheses`: `sum += thetas[idx] * math.Pow(x, float64(idx))` for
`idx = 0 .. len(thetas) - 1`, starting from `sum = 0.0`. -/
def hypotheses (x : α) (thetas : List α) : α :=
  (List.range thetas.length).foldl
    (fun sum idx => sum + thetas.getD idx 0 * x ^ idx) 0

/-- The function `eTheta`: the accumulated squared residuals, times `0.5`. -/
def eTheta (trainingPoints : Points α) (thetas : List α) : α :=
  trainingPoints.foldl
    (fun e point => e + (hypotheses point.X thetas - point.Y) ^ 2) 0 * 0.5

/-- The body of the loop of `plotFunction` for index `inx`. -/
def plotStep (step : α) (thetas : List α) (points : Points α) (inx : Nat) : Points α :=
  let x := step * (inx : α)
  points.set inx ⟨x, hypotheses x thetas⟩

/-- The function `plotFunction`; `make(Points, steps)` panics for a negative `steps`. -/
def plotFunction (steps : Int) (thetas : List α) : Option (Points α) :=
  if steps < 0 then none
  else
    let step : α := 1.0 / (steps : α)
    some ((List.range steps.toNat).foldl (plotStep step thetas)
      (List.replicate steps.toNat ⟨0, 0⟩))

/-- The body of the loop of `generateRandomPoints` for index `inx`, on the points filled
so far and the generator state: one call of `rand (-0.3) 0.3`. -/
def generateStep (rand : α → α → σ → α × σ) (sin : α → α) (pi : α) (stepSize : α)
    (st : Points α × σ) (inx : Nat) : Points α × σ :=
  let r := rand (-0.3) 0.3 st.2
  let noise := r.1
  let x := stepSize * (inx : α)
  let y := sin (2 * pi * x) + noise
  (st.1.set inx ⟨x, y⟩, r.2)

/-- The function `generateRandomPoints`; the generator state is threaded through the
loop. -/
def generateRandomPoints (rand : α → α → σ → α × σ) (sin : α → α) (pi : α)
    (num : Int) (s : σ) : Option (Points α × σ) :=
  if num < 0 then none
  else
    let stepSize : α := 1.0 / (num : α)
    some ((List.range num.toNat).foldl (generateStep rand sin pi stepSize)
      (List.replicate num.toNat ⟨0, 0⟩, s))

/-- The body of the innermost loop of the trainer for index `j`:
`thetas[j] += learnRate * (point.Y - hypotheses(point.X, thetas)) * xij`. -/
def updateTheta (learnRate : α) (point : Point α) (thetas : List α) (j : Nat) : List α :=
  let xij := point.X ^ j
  thetas.set j (thetas.getD j 0 + learnRate * (point.Y - hypotheses point.X thetas) * xij)

/-- The loop `for j := range thetas` of the trainer, for one point. -/
def updatePoint (learnRate : α) (thetas : List α) (point : Point α) : List α :=
  (List.range thetas.length).foldl (updateTheta learnRate point) thetas

/-- The loop `for _, point := range trainingPoints` of the trainer: one pass. -/
def trainingPass (learnRate : α) (trainingPoints : Points α) (thetas : List α) : List α :=
  trainingPoints.foldl (updatePoint learnRate) thetas

/-- The body of the outer loop of the trainer for iteration `idx`: one pass over the
points, then the error of the updated coefficients stored at `errorRate[idx]`. -/
def iteration (sqrt : α → α) (learnRate : α) (trainingPoints : Points α)
    (st : List α × List α) (idx : Nat) : List α × List α :=
  let thetas := trainingPass learnRate trainingPoints st.1
  let e := eTheta trainingPoints thetas
  let m : α := (trainingPoints.length : α)
  let erms := sqrt ((2.0 * e) / m)
  (thetas, st.2.set idx erms)

/-- The initialisation loop of the trainer: `thetas[inx] = simple.RandFloat(-0.5, 0.5)`
for `inx = 0 .. polynomialDegree`, on a slice of `n` zeros. -/
def initThetas (rand : α → α → σ → α × σ) (n : Nat) (s : σ) : List α × σ :=
  (List.range n).foldl
    (fun st (inx : Nat) =>
      let r := rand (-0.5) 0.5 st.2
      (st.1.set inx r.1, r.2))
    (List.replicate n 0, s)

/-- The function `stochasticGradientDescent`, with the number of passes (the constant
`iterations` of the source) as the parameter `iters`.  `make([]float64,
polynomialDegree+1)` panics when `polynomialDegree + 1` is negative. -/
def stochasticGradientDescentWith (iters : Nat) (rand : α → α → σ → α × σ)
    (sqrt : α → α) (trainingPoints : Points α) (learnRate : α) (polynomialDegree : Int)
    (s : σ) : Option (SGDExport α × σ) :=
  if polynomialDegree + 1 < 0 then none
  else
    let init := initThetas rand (polynomialDegree + 1).toNat s
    let run := (List.range iters).foldl (iteration sqrt learnRate trainingPoints)
      (init.1, List.replicate iters 0)
    let thetas := run.1
    let errorRate := run.2
    match plotFunction (trainingPoints.length : Int) thetas with
    | none => none
    | some plot =>
      let xy := Points.getXY plot
      some ({ Thetas := thetas
              Iterations := iters
              PolynomialDegree := polynomialDegree
              LearnRate := learnRate
              XPoints := xy.1
              YPoints := xy.2
              Error := errorRate }, init.2)

/-- The function `stochasticGradientDescent` of the source. -/
def stochasticGradientDescent (rand : α → α → σ → α × σ) (sqrt : α → α)
    (trainingPoints : Points α) (learnRate : α) (polynomialDegree : Int) (s : σ) :
    Option (SGDExport α × σ) :=
  stochasticGradientDescentWith iterations rand sqrt trainingPoints learnRate
    polynomialDegree s

/-- The pipeline of `main`: the dataset is generated, then the trainer is run on it, the
generator state going from the one call to the next.  The count, the learning rate, the
degree and the number of passes are parameters; the writing of the results is left
out. -/
def pipelineWith (iters : Nat) (rand : α → α → σ → α × σ) (sin : α → α) (pi : α)
    (sqrt : α → α) (num : Int) (learnRate : α) (polynomialDegree : Int) (s : σ) :
    Option (Points α × SGDExport α × σ) :=
  match generateRandomPoints rand sin pi num s with
  | none => none
  | some (randomPoints, s1) =>
    match stochasticGradientDescentWith iters rand sqrt randomPoints learnRate
        polynomialDegree s1 with
    | none => none
    | some (example1, s2) => some (randomPoints, example1, s2)

/-- The function `main` of the source, from the generator state left by `rand.Seed`:
100 points, learning rate `0.1`, degree 5. -/
def main (rand : α → α → σ → α × σ) (sin : α → α) (pi : α) (sqrt : α → α) (s : σ) :
    Option (Points α × SGDExport α × σ) :=
  pipelineWith iterations rand sin pi sqrt 100 0.1 5 s

end Defs

/-! ## The specification's wording, as definitions of its own -/

section SpecDefs

variable {α : Type} [Field α] {σ : Type}

/-- The polynomial of the specification: the sum over `j = 0 .. D` of `θ_j · x^j`. -/
def specHypothesis (D : Nat) (x : α) (θ : List α) : α :=
  ∑ j in Finset.range (D + 1), θ.getD j 0 * x ^ j

/-- One coefficient step of the specification:
`θ_j ← θ_j + a · (y − h(x, θ)) · x^j`, with `h` read on the vector as it stands. -/
def specCoeffStep (D : Nat) (a : α) (p : Point α) (θ : List α) (j : Nat) : List α :=
  θ.set j (θ.getD j 0 + a * (p.Y - specHypothesis D p.X θ) * p.X ^ j)

/-- The coefficient steps of the specification for one point, for the indices below `k`
in increasing order. -/
def specPointStep (D : Nat) (a : α) (p : Point α) : Nat → List α → List α
  | 0, θ => θ
  | k + 1, θ => specCoeffStep D a p (specPointStep D a p k θ) k

/-- One pass of the specification: the points in dataset order, and for each of them
the indices `j = 0 .. D`. -/
def specPass (D : Nat) (a : α) : Points α → List α → List α
  | [], θ => θ
  | p :: ps, θ => specPass D a ps (specPointStep D a p (D + 1) θ)

/-- The state of the random source after `k` draws of `uniform(lo, hi)`. -/
def drawState (rand : α → α → σ → α × σ) (lo hi : α) : Nat → σ → σ
  | 0, s => s
  | k + 1, s => (rand lo hi (drawState rand lo hi k s)).2

/-- The `k`-th draw (counting from 0) of `uniform(lo, hi)` from the state `s`. -/
def draw (rand : α → α → σ → α × σ) (lo hi : α) (k : Nat) (s : σ) : α :=
  (rand lo hi (drawState rand lo hi k s)).1

/-- The decoupled (simultaneous) gradient step for one point: every coefficient `j`
becomes `θ_j + a · (y − h(x, θ)) · x^j`, all of them computed from the same old
vector `θ`. -/
def decoupledUpdate (a : α) (p : Point α) (θ : List α) : List α :=
  (List.range θ.length).map
    (fun j => θ.getD j 0 + a * (p.Y - hypotheses p.X θ) * p.X ^ j)

end SpecDefs

/-! ## A second number model: floats with infinities and NaN

Where the sign of a result is at stake, overflow and the special values of `float64`
decide, and the exact model above has none.  The functions of the error metric and of
the training loop are therefore translated a second time, over `F64`. -/

/-- The largest finite `float64`, `(2^53 - 1) · 2^971`. -/
def maxFloat64 : ℚ := (2 ^ 53 - 1) * 2 ^ 971

/-- A `float64` value with its special values: a finite number, `+Inf`, `-Inf` or NaN.
Finite values are exact rationals (rounding, underflow and the sign of zero are not
modelled). -/
inductive F64 where
  | fin (q : ℚ)
  | pinf
  | ninf
  | nan
deriving DecidableEq

namespace F64

/-- The result of an operation whose exact value is `q`: it overflows to an infinity
beyond the largest finite `float64`. -/
def ofRat (q : ℚ) : F64 :=
  if maxFloat64 < q then pinf else if q < -maxFloat64 then ninf else fin q

/-- Negation. -/
def neg : F64 → F64
  | fin q => fin (-q)
  | pinf => ninf
  | ninf => pinf
  | nan => nan

/-- Addition: `+Inf + -Inf` is NaN. -/
def add : F64 → F64 → F64
  | fin a, fin b => ofRat (a + b)
  | fin _, pinf => pinf
  | fin _, ninf => ninf
  | pinf, fin _ => pinf
  | pinf, pinf => pinf
  | pinf, ninf => nan
  | ninf, fin _ => ninf
  | ninf, pinf => nan
  | ninf, ninf => ninf
  | nan, _ => nan
  | _, nan => nan

/-- Multiplication: `0 · ±Inf` is NaN. -/
def mul : F64 → F64 → F64
  | fin a, fin b => ofRat (a * b)
  | fin a, pinf => if a = 0 then nan else if 0 < a then pinf else ninf
  | fin a, ninf => if a = 0 then nan else if 0 < a then ninf else pinf
  | pinf, fin b => if b = 0 then nan else if 0 < b then pinf else ninf
  | ninf, fin b => if b = 0 then nan else if 0 < b then ninf else pinf
  | pinf, pinf => pinf
  | pinf, ninf => ninf
  | ninf, pinf => ninf
  | ninf, ninf => pinf
  | nan, _ => nan
  | _, nan => nan

/-- Division: `0 / 0` and `±Inf / ±Inf` are NaN, a non-zero number over zero is an
infinity (the zero divisor counting as `+0`). -/
def div : F64 → F64 → F64
  | fin a, fin b =>
    if b = 0 then (if a = 0 then nan else if 0 < a then pinf else ninf) else ofRat (a / b)
  | fin _, pinf => fin 0
  | fin _, ninf => fin 0
  | pinf, fin b => if 0 ≤ b then pinf else ninf
  | ninf, fin b => if 0 ≤ b then ninf else pinf
  | pinf, pinf => nan
  | pinf, ninf => nan
  | ninf, pinf => nan
  | ninf, ninf => nan
  | nan, _ => nan
  | _, nan => nan

/-- The function `math.Pow(x, float64(n))` for a natural number `n`: `1` for `n = 0`
whatever `x` is, also NaN. -/
def pow : F64 → Nat → F64
  | _, 0 => fin 1
  | fin q, n + 1 => ofRat (q ^ (n + 1))
  | pinf, _ + 1 => pinf
  | ninf, n + 1 => if (n + 1) % 2 = 1 then ninf else pinf
  | nan, _ + 1 => nan

/-- The function `math.Sqrt`, the square root of the finite non-negative values being
the parameter `rsqrt`: NaN for a negative argument and for NaN. -/
def sqrt (rsqrt : ℚ → ℚ) : F64 → F64
  | fin q => if q < 0 then nan else fin (rsqrt q)
  | pinf => pinf
  | ninf => nan
  | nan => nan

/-- The comparison `a <= b` of Go: false as soon as one side is NaN. -/
def le : F64 → F64 → Prop
  | fin a, fin b => a ≤ b
  | fin _, pinf => True
  | fin _, ninf => False
  | pinf, fin _ => False
  | pinf, pinf => True
  | pinf, ninf => False
  | ninf, fin _ => True
  | ninf, pinf => True
  | ninf, ninf => True
  | nan, _ => False
  | _, nan => False

instance : Zero F64 := ⟨fin 0⟩
instance : Neg F64 := ⟨neg⟩
instance : Add F64 := ⟨add⟩
instance : Sub F64 := ⟨fun a b => add a (neg b)⟩
instance : Mul F64 := ⟨mul⟩
instance : Div F64 := ⟨div⟩
instance : Pow F64 Nat := ⟨pow⟩
instance : LE F64 := ⟨le⟩

instance decidableLe (a b : F64) : Decidable (a ≤ b) := by
  cases a <;> cases b <;> simp only [LE.le, le] <;> infer_instance
instance : NatCast F64 := ⟨fun n => ofRat n⟩
instance : OfScientific F64 := ⟨fun m s e => ofRat (OfScientific.ofScientific m s e)⟩

/-- The function `hypotheses` on floats with special values. -/
def hypotheses (x : F64) (thetas : List F64) : F64 :=
  (List.range thetas.length).foldl
    (fun sum idx => sum + thetas.getD idx 0 * x ^ idx) 0

/-- The function `eTheta` on floats with special values. -/
def eTheta (trainingPoints : List (Point F64)) (thetas : List F64) : F64 :=
  trainingPoints.foldl
    (fun e point => e + (hypotheses point.X thetas - point.Y) ^ 2) 0 * 0.5

/-- The body of the innermost loop of the trainer on floats with special values. -/
def updateTheta (learnRate : F64) (point : Point F64) (thetas : List F64) (j : Nat) :
    List F64 :=
  let xij := point.X ^ j
  thetas.set j (thetas.getD j 0 + learnRate * (point.Y - hypotheses point.X thetas) * xij)

/-- The loop `for j := range thetas` of the trainer on floats with special values. -/
def updatePoint (learnRate : F64) (thetas : List F64) (point : Point F64) : List F64 :=
  (List.range thetas.length).foldl (updateTheta learnRate point) thetas

/-- One pass of the trainer on floats with special values. -/
def trainingPass (learnRate : F64) (trainingPoints : List (Point F64))
    (thetas : List F64) : List F64 :=
  trainingPoints.foldl (updatePoint learnRate) thetas

/-- The body of the outer loop of the trainer on floats with special values. -/
def iteration (sqrt : F64 → F64) (learnRate : F64) (trainingPoints : List (Point F64))
    (st : List F64 × List F64) (idx : Nat) : List F64 × List F64 :=
  let thetas := trainingPass learnRate trainingPoints st.1
  let e := eTheta trainingPoints thetas
  let m : F64 := (trainingPoints.length : F64)
  let erms := sqrt ((2.0 * e) / m)
  (thetas, st.2.set idx erms)

/-- A value that is NaN or not below zero. -/
def NanOrNonneg (v : F64) : Prop := v = nan ∨ 0 ≤ v

/-- A rational lower approximation of the square root of `q = n / d ≥ 0`, the integer
square root of `n · d` over `d`. -/
def ratSqrt (q : ℚ) : ℚ := (Nat.sqrt (q.num.toNat * q.den) : ℚ) / q.den

end F64


/-! ## Loops -/

section Loops

/-- A loop `for i := 0; i < k; i++` whose body stores a value at index `i` of an array
held in the state: the array keeps its length, and afterwards holds at every index
`i < k` the value computed from the state in which iteration `i` started. -/
theorem foldl_range_set {S γ : Type} (step : S → Nat → S) (arr : S → List γ)
    (v : S → Nat → γ) (h : ∀ st i, arr (step st i) = (arr st).set i (v st i)) (st0 : S)
    (k : Nat) :
    (arr ((List.range k).foldl step st0)).length = (arr st0).length ∧
    ∀ i, (arr ((List.range k).foldl step st0))[i]? =
      if i < k ∧ i < (arr st0).length then some (v ((List.range i).foldl step st0) i)
      else (arr st0)[i]? := by
  induction k with
  | zero => simp
  | succ k ih =>
    obtain ⟨ihl, ihg⟩ := ih
    rw [List.range_succ, List.foldl_append]
    simp only [List.foldl_cons, List.foldl_nil, h, List.length_set]
    refine ⟨ihl, fun i => ?_⟩
    rw [List.getElem?_set]
    by_cases hik : k = i
    · subst hik
      by_cases hk : k < (arr st0).length
      · simp [ihl, hk]
      · simp [ihl, hk]
        omega
    · simp only [hik, if_false, ihg]
      have : (i < k + 1) = (i < k) := by
        apply propext; omega
      simp [this]

/-- An accumulating loop over `0 .. n - 1` is the finite sum of its summands. -/
theorem foldl_range_add {α : Type} [AddCommMonoid α] (f : Nat → α) (n : Nat) :
    (List.range n).foldl (fun sum idx => sum + f idx) 0 = ∑ j in Finset.range n, f j := by
  induction n with
  | zero => simp
  | succ n ih =>
    rw [List.range_succ, List.foldl_append, ih, Finset.sum_range_succ]
    simp

/-- An accumulating loop over a list is the sum of the mapped list. -/
theorem foldl_add_eq_sum {α β : Type} [AddCommMonoid α] (f : β → α) (l : List β) (z : α) :
    l.foldl (fun e b => e + f b) z = z + (l.map f).sum := by
  induction l generalizing z with
  | nil => simp
  | cons b l ih => simp [ih, add_assoc]

end Loops

/-! ## The hypothesis evaluator and the error metric -/

section Evaluator

variable {α : Type}

/-- The loop of `hypotheses` computes the polynomial with coefficients `thetas`. -/
theorem hypotheses_eq_sum [Field α] (x : α) (thetas : List α) :
    hypotheses x thetas = ∑ j in Finset.range thetas.length, thetas.getD j 0 * x ^ j :=
  foldl_range_add (fun idx => thetas.getD idx 0 * x ^ idx) thetas.length

/-- The loop of `eTheta` computes half the sum of the squared residuals. -/
theorem eTheta_eq_sum [Field α] (P : Points α) (thetas : List α) :
    eTheta P thetas = 0.5 * (P.map (fun p => (hypotheses p.X thetas - p.Y) ^ 2)).sum := by
  unfold eTheta
  rw [foldl_add_eq_sum (fun p => (hypotheses p.X thetas - p.Y) ^ 2) P 0, zero_add, mul_comm]

/-- C1: for every `x` and every coefficient vector `thetas` of length `D + 1`,
`hypotheses x thetas` is the sum over `j = 0 .. D` of `thetas[j] * x ^ j`; the term
for `j = 0` is `thetas[0]` whatever `x` is (also `x = 0`), because `x ^ 0 = 1`. -/
theorem C1_hypotheses_polynomial [Field α] (x : α) (thetas : List α)
    (D : Nat) (hlen : thetas.length = D + 1) :
    hypotheses x thetas = ∑ j in Finset.range (D + 1), thetas.getD j 0 * x ^ j ∧
    hypotheses x thetas =
      thetas.getD 0 0 + ∑ j in Finset.range D, thetas.getD (j + 1) 0 * x ^ (j + 1) ∧
    hypotheses x thetas = specHypothesis D x thetas := by
  have h := hypotheses_eq_sum x thetas
  rw [hlen] at h
  refine ⟨h, ?_, h⟩
  rw [h, Finset.sum_range_succ']
  simp [add_comm]

/-- C1, at the coefficients `1, 2, 3` (so `D = 2`) and `x = 0`. -/
theorem C1_hypotheses_polynomial_witness :
    ([1, 2, 3] : List ℚ).length = 2 + 1 ∧
    hypotheses (0 : ℚ) [1, 2, 3] = ∑ j in Finset.range (2 + 1), [1, 2, 3].getD j 0 * 0 ^ j ∧
    hypotheses (0 : ℚ) [1, 2, 3] =
      [1, 2, 3].getD 0 0 + ∑ j in Finset.range 2, [1, 2, 3].getD (j + 1) 0 * 0 ^ (j + 1) ∧
    hypotheses (0 : ℚ) [1, 2, 3] = specHypothesis 2 0 [1, 2, 3] :=
  ⟨rfl, C1_hypotheses_polynomial 0 [1, 2, 3] 2 rfl⟩

/-- C4: for every dataset `P` and coefficient vector `thetas`, `eTheta P thetas` is
`0.5` times the sum over the points `(x, y)` of `P` of
`(hypotheses x thetas - y) ^ 2`. -/
theorem C4_eTheta_half_sum_squares [Field α] (P : Points α)
    (thetas : List α) :
    eTheta P thetas = 0.5 * (P.map (fun p => (hypotheses p.X thetas - p.Y) ^ 2)).sum :=
  eTheta_eq_sum P thetas

/-- C6: for every non-empty coefficient vector `thetas`, `hypotheses 0 thetas` is
`thetas[0]` and `hypotheses 1 thetas` is the sum of all entries of `thetas`. -/
theorem C6_hypotheses_at_zero_and_one [Field α] (thetas : List α)
    (hne : thetas ≠ []) :
    hypotheses 0 thetas = thetas.head hne ∧ hypotheses 1 thetas = thetas.sum := by
  constructor
  · obtain ⟨t, ts, rfl⟩ := List.exists_cons_of_ne_nil hne
    rw [hypotheses_eq_sum, List.length_cons, Finset.sum_range_succ']
    simp
  · rw [hypotheses_eq_sum]
    simp only [one_pow, mul_one]
    clear hne
    induction thetas with
    | nil => simp
    | cons t ts ih =>
      rw [List.length_cons, Finset.sum_range_succ', List.sum_cons, add_comm]
      simp only [List.getD_cons_succ, List.getD_cons_zero]
      rw [ih]

/-- C6, at the coefficients `5, 7, 11`. -/
theorem C6_hypotheses_at_zero_and_one_witness :
    ([5, 7, 11] : List ℚ) ≠ [] ∧ hypotheses (0 : ℚ) [5, 7, 11] = 5 ∧
      hypotheses (1 : ℚ) [5, 7, 11] = 23 := by
  have h := C6_hypotheses_at_zero_and_one ([5, 7, 11] : List ℚ) (by simp)
  refine ⟨by simp, ?_, ?_⟩
  · rw [h.1]; rfl
  · rw [h.2]; norm_num

end Evaluator

/-! ## The trainer -/

section Trainer

variable {α : Type} {σ : Type}

/-- The coefficients after `k` iterations of the outer loop are `k` passes applied to
the initial coefficients. -/
theorem run_thetas [Field α] (sqrt : α → α) (a : α) (P : Points α) (θ errs : List α)
    (k : Nat) :
    ((List.range k).foldl (iteration sqrt a P) (θ, errs)).1 = (trainingPass a P)^[k] θ := by
  induction k with
  | zero => rfl
  | succ k ih =>
    rw [List.range_succ, List.foldl_append, Function.iterate_succ_apply', ← ih]
    rfl

/-- The error array after `k` iterations of the outer loop. -/
theorem run_errors [Field α] (sqrt : α → α) (a : α) (P : Points α) (θ errs : List α)
    (k : Nat) :
    ((List.range k).foldl (iteration sqrt a P) (θ, errs)).2.length = errs.length ∧
    ∀ i, ((List.range k).foldl (iteration sqrt a P) (θ, errs)).2[i]? =
      if i < k ∧ i < errs.length then
        some (sqrt ((2.0 * eTheta P ((trainingPass a P)^[i + 1] θ)) / (P.length : α)))
      else errs[i]? := by
  have h := foldl_range_set (iteration sqrt a P) Prod.snd
    (fun st _ => sqrt ((2.0 * eTheta P (trainingPass a P st.1)) / (P.length : α)))
    (fun _ _ => rfl) (θ, errs) k
  refine ⟨h.1, fun i => ?_⟩
  rw [h.2 i]
  simp only [run_thetas, Function.iterate_succ_apply']

/-- A sampled curve never panics on a length: `plotFunction` returns for every
natural number of steps. -/
theorem plotFunction_natCast [Field α] (n : Nat) (thetas : List α) :
    plotFunction (n : Int) thetas = some ((List.range n).foldl
      (plotStep (1.0 / ((n : Int) : α)) thetas) (List.replicate n ⟨0, 0⟩)) := by
  unfold plotFunction
  rw [if_neg (by omega)]
  simp only [Int.toNat_ofNat]

/-- The trainer returns for every degree `D ≥ 0`, and this is the record it returns. -/
theorem stochasticGradientDescentWith_natCast [Field α] (iters : Nat)
    (rand : α → α → σ → α × σ) (sqrt : α → α) (P : Points α) (a : α) (D : Nat) (s : σ) :
    ∃ plot, plotFunction (P.length : Int)
        ((trainingPass a P)^[iters] (initThetas rand (D + 1) s).1) = some plot ∧
      stochasticGradientDescentWith iters rand sqrt P a (D : Int) s =
        some ({ Thetas := (trainingPass a P)^[iters] (initThetas rand (D + 1) s).1
                Iterations := iters
                PolynomialDegree := (D : Int)
                LearnRate := a
                XPoints := (Points.getXY plot).1
                YPoints := (Points.getXY plot).2
                Error := ((List.range iters).foldl (iteration sqrt a P)
                  ((initThetas rand (D + 1) s).1, List.replicate iters 0)).2 },
              (initThetas rand (D + 1) s).2) := by
  refine ⟨_, plotFunction_natCast P.length _, ?_⟩
  unfold stochasticGradientDescentWith
  rw [if_neg (by omega)]
  have hD : ((D : Int) + 1).toNat = D + 1 := by omega
  simp only [hD, run_thetas, plotFunction_natCast]

/-- The initial coefficient vector has `n` entries. -/
theorem initThetas_length [Field α] (rand : α → α → σ → α × σ) (n : Nat) (s : σ) :
    (initThetas rand n s).1.length = n := by
  have h := foldl_range_set
    (fun (st : List α × σ) (inx : Nat) =>
      ((st.1.set inx (rand (-0.5) 0.5 st.2).1, (rand (-0.5) 0.5 st.2).2) : List α × σ))
    Prod.fst (fun st _ => (rand (-0.5) 0.5 st.2).1) (fun _ _ => rfl)
    (List.replicate n 0, s) n
  simpa [initThetas] using h.1

/-- One coefficient update keeps the length of the coefficient vector. -/
theorem updateTheta_length [Field α] (a : α) (p : Point α) (θ : List α) (j : Nat) :
    (updateTheta a p θ j).length = θ.length := by
  simp [updateTheta]

/-- The inner loop run over the indices below `k` keeps the length. -/
theorem foldl_updateTheta_length [Field α] (a : α) (p : Point α) (θ : List α) (k : Nat) :
    ((List.range k).foldl (updateTheta a p) θ).length = θ.length := by
  induction k with
  | zero => rfl
  | succ k ih =>
    rw [List.range_succ, List.foldl_append]
    simp [updateTheta_length, ih]

/-- The update for one point keeps the length of the coefficient vector. -/
theorem updatePoint_length [Field α] (a : α) (θ : List α) (p : Point α) :
    (updatePoint a θ p).length = θ.length :=
  foldl_updateTheta_length a p θ θ.length

/-- A pass keeps the length of the coefficient vector. -/
theorem trainingPass_length [Field α] (a : α) (P : Points α) (θ : List α) :
    (trainingPass a P θ).length = θ.length := by
  unfold trainingPass
  induction P generalizing θ with
  | nil => rfl
  | cons p ps ih => rw [List.foldl_cons, ih, updatePoint_length]

/-- Any number of passes keeps the length of the coefficient vector. -/
theorem iterate_trainingPass_length [Field α] (a : α) (P : Points α) (θ : List α)
    (k : Nat) : ((trainingPass a P)^[k] θ).length = θ.length := by
  induction k with
  | zero => rfl
  | succ k ih => rw [Function.iterate_succ_apply', trainingPass_length, ih]

/-- On a vector of length `D + 1` the coefficient update of the code is the coefficient
step of the specification. -/
theorem updateTheta_eq_spec [Field α] (D : Nat) (a : α) (p : Point α) (θ : List α)
    (hlen : θ.length = D + 1) (j : Nat) :
    updateTheta a p θ j = specCoeffStep D a p θ j := by
  unfold updateTheta specCoeffStep specHypothesis
  rw [hypotheses_eq_sum, hlen]

/-- The inner loop of the code, run over the indices below `k`, is the point step of the
specification. -/
theorem foldl_updateTheta_eq_spec [Field α] (D : Nat) (a : α) (p : Point α) (θ : List α)
    (hlen : θ.length = D + 1) (k : Nat) :
    (List.range k).foldl (updateTheta a p) θ = specPointStep D a p k θ := by
  induction k with
  | zero => rfl
  | succ k ih =>
    rw [List.range_succ, List.foldl_append, specPointStep, ← ih]
    simp only [List.foldl_cons, List.foldl_nil]
    exact updateTheta_eq_spec D a p _ (by rw [foldl_updateTheta_length, hlen]) k

/-- A pass of the code is a pass of the specification. -/
theorem trainingPass_eq_spec [Field α] (D : Nat) (a : α) (P : Points α) (θ : List α)
    (hlen : θ.length = D + 1) : trainingPass a P θ = specPass D a P θ := by
  unfold trainingPass
  induction P generalizing θ with
  | nil => rfl
  | cons p ps ih =>
    rw [List.foldl_cons, specPass, ih _ (by rw [updatePoint_length, hlen])]
    congr 1
    unfold updatePoint
    rw [hlen]
    exact foldl_updateTheta_eq_spec D a p θ hlen (D + 1)

/-- Any number of passes of the code is as many passes of the specification. -/
theorem iterate_trainingPass_eq_spec [Field α] (D : Nat) (a : α) (P : Points α)
    (θ : List α) (hlen : θ.length = D + 1) (k : Nat) :
    (trainingPass a P)^[k] θ = (specPass D a P)^[k] θ := by
  induction k with
  | zero => rfl
  | succ k ih =>
    rw [Function.iterate_succ_apply', Function.iterate_succ_apply', ← ih]
    exact trainingPass_eq_spec D a P _ (by rw [iterate_trainingPass_length, hlen])

/-- C2: for every dataset `P`, learning rate `a`, degree `D` and pass count `T`, the
trainer returns, and the coefficient vector it returns is the pass of the specification
applied exactly `T` times to the initial vector, where a pass visits the points of `P`
in order and for each point the indices `j = 0 .. D` in increasing order, each step
being `θ_j ← θ_j + a · (y − h(x, θ)) · x^j` with `h` read on the current vector. -/
theorem C2_trainer_is_T_passes [Field α] (T : Nat)
    (rand : α → α → σ → α × σ) (sqrt : α → α) (P : Points α) (a : α) (D : Nat) (s : σ) :
    (∃ r s', stochasticGradientDescentWith T rand sqrt P a (D : Int) s = some (r, s') ∧
      r.Thetas = (specPass D a P)^[T] (initThetas rand (D + 1) s).1) ∧
    (∃ r s', stochasticGradientDescent rand sqrt P a (D : Int) s = some (r, s') ∧
      r.Thetas = (specPass D a P)^[iterations] (initThetas rand (D + 1) s).1) := by
  have key : ∀ n : Nat,
      ∃ r s', stochasticGradientDescentWith n rand sqrt P a (D : Int) s = some (r, s') ∧
        r.Thetas = (specPass D a P)^[n] (initThetas rand (D + 1) s).1 := by
    intro n
    obtain ⟨plot, -, h⟩ := stochasticGradientDescentWith_natCast n rand sqrt P a D s
    exact ⟨_, _, h, iterate_trainingPass_eq_spec D a P _ (initThetas_length rand _ s) n⟩
  exact ⟨key T, key iterations⟩

/-- The argument of the square root in the recorded error is the mean squared
residual. -/
theorem two_eTheta_div [LinearOrderedField α] (P : Points α) (θ : List α) :
    (2.0 * eTheta P θ) / (P.length : α) =
      (P.map (fun p => (hypotheses p.X θ - p.Y) ^ 2)).sum / (P.length : α) := by
  rw [eTheta_eq_sum]
  congr 1
  norm_num
  ring

/-- The error trace of a run of `T` passes: its length and its entries. -/
theorem trace_entries [Field α] (T : Nat) (sqrt : α → α) (P : Points α) (a : α)
    (θ : List α) :
    ((List.range T).foldl (iteration sqrt a P) (θ, List.replicate T 0)).2.length = T ∧
    ∀ i, i < T →
      ((List.range T).foldl (iteration sqrt a P) (θ, List.replicate T 0)).2[i]? =
        some (sqrt ((2.0 * eTheta P ((trainingPass a P)^[i + 1] θ)) / (P.length : α))) := by
  have h := run_errors sqrt a P θ (List.replicate T 0) T
  refine ⟨by simpa using h.1, fun i hi => ?_⟩
  rw [h.2 i, if_pos ⟨hi, by simpa using hi⟩]

/-- C3: for every non-empty dataset `P` and every run of `T` passes, the trainer
returns, its error trace has exactly `T` entries, and for every `i < T` entry `i` is
`sqrt (2 * eTheta P θ_i / |P|)`, where `θ_i` is the coefficient vector right after pass
`i` (counting from 0); this is the square root of the mean squared residual over `P`. -/
theorem C3_error_trace [LinearOrderedField α] (T : Nat) (rand : α → α → σ → α × σ)
    (sqrt : α → α) (P : Points α) (a : α) (D : Nat) (s : σ) (hne : P ≠ []) :
    ∃ r s', stochasticGradientDescentWith T rand sqrt P a (D : Int) s = some (r, s') ∧
      r.Error.length = T ∧
      ∀ i, i < T →
        r.Error[i]? = some (sqrt (2 *
          eTheta P ((trainingPass a P)^[i + 1] (initThetas rand (D + 1) s).1) /
            (P.length : α))) ∧
        r.Error[i]? = some (sqrt ((P.map (fun p =>
          (hypotheses p.X ((trainingPass a P)^[i + 1] (initThetas rand (D + 1) s).1)
            - p.Y) ^ 2)).sum / (P.length : α))) := by
  have _ := hne
  obtain ⟨plot, -, h⟩ := stochasticGradientDescentWith_natCast T rand sqrt P a D s
  obtain ⟨hl, hg⟩ := trace_entries T sqrt P a (initThetas rand (D + 1) s).1
  refine ⟨_, _, h, hl, fun i hi => ⟨?_, ?_⟩⟩
  · simp only [hg i hi]
    norm_num
  · simp only [hg i hi, two_eTheta_div]

/-- C3, for the dataset of the single point `(1, 1)`, two passes and degree 0. -/
theorem C3_error_trace_witness :
    ([⟨1, 1⟩] : Points ℝ) ≠ [] ∧
    ∃ r s', stochasticGradientDescentWith 2 (fun lo hi (u : Unit) => ((lo + hi) / 2, u))
        Real.sqrt [⟨1, 1⟩] (1 / 2 : ℝ) ((0 : Nat) : Int) () = some (r, s') ∧
      r.Error.length = 2 ∧
      ∀ i, i < 2 →
        r.Error[i]? = some (Real.sqrt (2 *
          eTheta [⟨1, 1⟩] ((trainingPass (1 / 2 : ℝ) [⟨1, 1⟩])^[i + 1]
            (initThetas (fun lo hi (u : Unit) => ((lo + hi) / 2, u)) (0 + 1) ()).1) /
            (([⟨1, 1⟩] : Points ℝ).length : ℝ))) ∧
        r.Error[i]? = some (Real.sqrt ((([⟨1, 1⟩] : Points ℝ).map (fun p =>
          (hypotheses p.X ((trainingPass (1 / 2 : ℝ) [⟨1, 1⟩])^[i + 1]
            (initThetas (fun lo hi (u : Unit) => ((lo + hi) / 2, u)) (0 + 1) ()).1)
            - p.Y) ^ 2)).sum / (([⟨1, 1⟩] : Points ℝ).length : ℝ))) :=
  ⟨by simp, C3_error_trace 2 _ Real.sqrt [⟨1, 1⟩] (1 / 2) 0 () (by simp)⟩

end Trainer

/-! ## The point generator and the curve sampler -/

section Generator

variable {α : Type} {σ : Type}

/-- The generator state after `k` iterations of the loop of `generateRandomPoints` is
the state after `k` draws of `uniform(-0.3, 0.3)`. -/
theorem generate_state [Field α] (rand : α → α → σ → α × σ) (sin : α → α) (pi c : α)
    (pts : Points α) (s : σ) (k : Nat) :
    ((List.range k).foldl (generateStep rand sin pi c) (pts, s)).2 =
      drawState rand (-0.3) 0.3 k s := by
  induction k with
  | zero => rfl
  | succ k ih =>
    rw [List.range_succ, List.foldl_append]
    simp only [List.foldl_cons, List.foldl_nil, generateStep, ih, drawState]

/-- The division of the grid: `1.0 / n * i` is `i / n`. -/
theorem grid_point [Field α] (n i : Nat) :
    (1.0 : α) / ((n : Int) : α) * (i : α) = (i : α) / (n : α) := by
  rw [Int.cast_natCast]
  norm_num
  ring

/-- The point generator returns for every natural count `n`: it consumes exactly `n`
draws, returns `n` points, and the point of index `i` is built from `i` and from the
draw of index `i`. -/
theorem generateRandomPoints_natCast [Field α] (rand : α → α → σ → α × σ) (sin : α → α)
    (pi : α) (n : Nat) (s : σ) :
    ∃ pts, generateRandomPoints rand sin pi (n : Int) s =
        some (pts, drawState rand (-0.3) 0.3 n s) ∧
      pts.length = n ∧
      ∀ i, i < n → pts[i]? = some
        ⟨(i : α) / (n : α), sin (2 * pi * ((i : α) / (n : α))) + draw rand (-0.3) 0.3 i s⟩ := by
  have hset := foldl_range_set (generateStep rand sin pi (1.0 / ((n : Int) : α))) Prod.fst
    (fun st inx => (⟨1.0 / ((n : Int) : α) * (inx : α),
      sin (2 * pi * (1.0 / ((n : Int) : α) * (inx : α))) + (rand (-0.3) 0.3 st.2).1⟩ :
        Point α))
    (fun _ _ => rfl) (List.replicate n ⟨0, 0⟩, s) n
  have hst := generate_state rand sin pi (1.0 / ((n : Int) : α)) (List.replicate n ⟨0, 0⟩) s
  refine ⟨((List.range n).foldl (generateStep rand sin pi (1.0 / ((n : Int) : α)))
    (List.replicate n ⟨0, 0⟩, s)).1, ?_, ?_, fun i hi => ?_⟩
  · unfold generateRandomPoints
    rw [if_neg (by omega), ← hst n]
    simp only [Int.toNat_ofNat]
  · simpa using hset.1
  · rw [hset.2 i, if_pos ⟨hi, by simpa using hi⟩, hst i, grid_point]
    rfl

/-- C7: for every `n` and every random source, `generateRandomPoints n` returns exactly
`n` points, the point of index `i < n` having x-coordinate `i / n`; for `n = 0` it
returns the empty dataset. -/
theorem C7_generated_grid [Field α] (rand : α → α → σ → α × σ)
    (sin : α → α) (pi : α) (s : σ) :
    (∀ n : Nat, ∃ pts s', generateRandomPoints rand sin pi (n : Int) s = some (pts, s') ∧
      pts.length = n ∧
      ∀ i, i < n → (pts[i]?).map Point.X = some ((i : α) / (n : α))) ∧
    generateRandomPoints rand sin pi 0 s = some ([], s) := by
  refine ⟨fun n => ?_, rfl⟩
  obtain ⟨pts, h, hl, hg⟩ := generateRandomPoints_natCast rand sin pi n s
  exact ⟨pts, _, h, hl, fun i hi => by rw [hg i hi]; rfl⟩

/-- C8: for every `n ≥ 1` and every random source whose draws of `uniform(lo, hi)` lie
in `[lo, hi]`, the point of index `i` of `generateRandomPoints n` has
`y_i = sin (2 * pi * x_i) + e_i` with `x_i = i / n` and `e_i` the draw of index `i` of
`uniform(-0.3, 0.3)`; the source is left in the state reached after exactly `n` draws;
and `|y_i - sin (2 * pi * x_i)| ≤ 0.3`. -/
theorem C8_generated_noise [LinearOrderedField α] (rand : α → α → σ → α × σ)
    (hrand : ∀ lo hi s, lo ≤ hi → lo ≤ (rand lo hi s).1 ∧ (rand lo hi s).1 ≤ hi)
    (sin : α → α) (pi : α) (n : Nat) (hn : 1 ≤ n) (s : σ) :
    ∃ pts, generateRandomPoints rand sin pi (n : Int) s =
        some (pts, drawState rand (-0.3) 0.3 n s) ∧
      ∀ i, i < n → ∃ p, pts[i]? = some p ∧ p.X = (i : α) / (n : α) ∧
        p.Y = sin (2 * pi * p.X) + draw rand (-0.3) 0.3 i s ∧
        |p.Y - sin (2 * pi * p.X)| ≤ 0.3 := by
  have _ := hn
  obtain ⟨pts, h, -, hg⟩ := generateRandomPoints_natCast rand sin pi n s
  refine ⟨pts, h, fun i hi => ⟨_, hg i hi, rfl, rfl, ?_⟩⟩
  have hd := hrand (-0.3) 0.3 (drawState rand (-0.3) 0.3 i s) (by norm_num)
  simp only [add_sub_cancel_left]
  exact abs_le.2 hd

/-- C8, for the real sine, four points, and the source that always returns the
midpoint of the interval asked for. -/
theorem C8_generated_noise_witness :
    (∀ (lo hi : ℝ) (s : Nat), lo ≤ hi →
      lo ≤ ((lo + hi) / 2, s + 1).1 ∧ ((lo + hi) / 2, s + 1).1 ≤ hi) ∧ 1 ≤ 4 ∧
    ∃ pts, generateRandomPoints (fun lo hi (s : Nat) => ((lo + hi) / 2, s + 1)) Real.sin
        Real.pi ((4 : Nat) : Int) 0 =
        some (pts, drawState (fun lo hi (s : Nat) => ((lo + hi) / 2, s + 1))
          (-0.3 : ℝ) 0.3 4 0) ∧
      ∀ i : Nat, i < 4 → ∃ p, pts[i]? = some p ∧ p.X = (i : ℝ) / ((4 : Nat) : ℝ) ∧
        p.Y = Real.sin (2 * Real.pi * p.X) +
          draw (fun lo hi (s : Nat) => ((lo + hi) / 2, s + 1)) (-0.3 : ℝ) 0.3 i 0 ∧
        |p.Y - Real.sin (2 * Real.pi * p.X)| ≤ 0.3 :=
  have hmid : ∀ (lo hi : ℝ) (s : Nat), lo ≤ hi →
      lo ≤ ((lo + hi) / 2, s + 1).1 ∧ ((lo + hi) / 2, s + 1).1 ≤ hi :=
    fun lo hi _ h => ⟨by show lo ≤ (lo + hi) / 2; linarith,
      by show (lo + hi) / 2 ≤ hi; linarith⟩
  ⟨hmid, by decide, C8_generated_noise _ hmid Real.sin Real.pi 4 (by decide) 0⟩

/-- C9: the x-coordinates returned by `generateRandomPoints` are not drawn from the
random source.  For `n = 2`, the source that always returns `0.3` and the source that
always returns `-0.3` give the same x-coordinates `0, 1/2`, while the y-coordinates
(`sin` being replaced by the zero function) follow the draws. -/
theorem C9_x_coordinates_not_random :
    (generateRandomPoints (fun _ _ (u : Unit) => ((3 / 10 : ℚ), u)) (fun _ => 0) 3 2 ())
      = some ([⟨0, 3 / 10⟩, ⟨1 / 2, 3 / 10⟩], ()) ∧
    (generateRandomPoints (fun _ _ (u : Unit) => ((-3 / 10 : ℚ), u)) (fun _ => 0) 3 2 ())
      = some ([⟨0, -3 / 10⟩, ⟨1 / 2, -3 / 10⟩], ()) := by
  constructor <;>
    norm_num [generateRandomPoints, generateStep, List.range_succ, List.replicate,
      show (2 : Int).toNat = 2 from rfl]

/-- The sampled curve: `n` points, the point of index `i` being the fitted polynomial
at `i / n`. -/
theorem plotFunction_entries [Field α] (n : Nat) (thetas : List α) :
    ∃ pts, plotFunction (n : Int) thetas = some pts ∧ pts.length = n ∧
      ∀ i, i < n →
        pts[i]? = some ⟨(i : α) / (n : α), hypotheses ((i : α) / (n : α)) thetas⟩ := by
  have hset := foldl_range_set (plotStep (1.0 / ((n : Int) : α)) thetas) id
    (fun _ inx => (⟨1.0 / ((n : Int) : α) * (inx : α),
        hypotheses (1.0 / ((n : Int) : α) * (inx : α)) thetas⟩ : Point α))
    (fun _ _ => rfl) (List.replicate n ⟨0, 0⟩) n
  refine ⟨_, plotFunction_natCast n thetas, by simpa using hset.1, fun i hi => ?_⟩
  have h := hset.2 i
  simp only [id] at h
  rw [h, if_pos ⟨hi, by simpa using hi⟩, grid_point]

/-- C10: for every coefficient vector `thetas` and every sample count `n`,
`plotFunction n thetas` returns exactly `n` points, the point of index `i < n` being
`(i / n, hypotheses (i / n) thetas)`, and every x-coordinate lies in `[0, 1]`. -/
theorem C10_plotFunction_grid [LinearOrderedField α] (n : Nat) (thetas : List α) :
    ∃ pts, plotFunction (n : Int) thetas = some pts ∧ pts.length = n ∧
      (∀ i, i < n →
        pts[i]? = some ⟨(i : α) / (n : α), hypotheses ((i : α) / (n : α)) thetas⟩) ∧
      ∀ p ∈ pts, 0 ≤ p.X ∧ p.X ≤ 1 := by
  obtain ⟨pts, h, hl, hg⟩ := plotFunction_entries n thetas
  refine ⟨pts, h, hl, hg, fun p hp => ?_⟩
  obtain ⟨i, hi, rfl⟩ := List.getElem_of_mem hp
  have hi' : i < n := by simpa only [hl] using hi
  have hget := hg i hi'
  rw [List.getElem?_eq_getElem hi] at hget
  rw [Option.some.inj hget]
  have hn : (0 : α) < (n : α) := by exact_mod_cast (by omega : 0 < n)
  have hin : (i : α) ≤ (n : α) := by exact_mod_cast hi'.le
  exact ⟨div_nonneg (Nat.cast_nonneg _) hn.le, (div_le_one hn).2 hin⟩

end Generator

/-! ## Invariants and boundary cases of the trainer -/

section Invariants

variable {α : Type} {σ : Type}

/-- The generator state after `k` iterations of the initialisation loop is the state
after `k` draws of `uniform(-0.5, 0.5)`. -/
theorem init_state [Field α] (rand : α → α → σ → α × σ) (θ : List α) (s : σ) (k : Nat) :
    ((List.range k).foldl
      (fun (st : List α × σ) (inx : Nat) =>
        ((st.1.set inx (rand (-0.5) 0.5 st.2).1, (rand (-0.5) 0.5 st.2).2) : List α × σ))
      (θ, s)).2 = drawState rand (-0.5) 0.5 k s := by
  induction k with
  | zero => rfl
  | succ k ih =>
    rw [List.range_succ, List.foldl_append]
    simp only [List.foldl_cons, List.foldl_nil, ih, drawState]

/-- The initial coefficients are the successive draws of `uniform(-0.5, 0.5)`, and the
initialisation consumes exactly `n` draws. -/
theorem initThetas_entries [Field α] (rand : α → α → σ → α × σ) (n : Nat) (s : σ) :
    (initThetas rand n s).2 = drawState rand (-0.5) 0.5 n s ∧
    ∀ i, i < n → (initThetas rand n s).1[i]? = some (draw rand (-0.5) 0.5 i s) := by
  have h := foldl_range_set
    (fun (st : List α × σ) (inx : Nat) =>
      ((st.1.set inx (rand (-0.5) 0.5 st.2).1, (rand (-0.5) 0.5 st.2).2) : List α × σ))
    Prod.fst (fun st _ => (rand (-0.5) 0.5 st.2).1) (fun _ _ => rfl)
    (List.replicate n 0, s) n
  refine ⟨init_state rand _ s n, fun i hi => ?_⟩
  have hi' := h.2 i
  rw [if_pos ⟨hi, by simpa using hi⟩, init_state] at hi'
  exact hi'

/-- C11: for every degree `D ≥ 0`, every dataset and every learning rate, the
coefficient vector has length exactly `D + 1` at initialisation, after every single
coefficient update (after `n` complete passes, `m` further points and `k` further
coefficient steps on the next point `p`), after every pass, and in the returned record;
the length is 1 for `D = 0` and 11 for `D = 10`. -/
theorem C11_coefficient_length [Field α] (rand : α → α → σ → α × σ) (sqrt : α → α)
    (P : Points α) (a : α) (D : Nat) (s : σ) :
    (initThetas rand (D + 1) s).1.length = D + 1 ∧
    (∀ (n m k : Nat) (p : Point α),
      ((List.range k).foldl (updateTheta a p)
        ((P.take m).foldl (updatePoint a)
          ((trainingPass a P)^[n] (initThetas rand (D + 1) s).1))).length = D + 1) ∧
    (∀ n : Nat, ((trainingPass a P)^[n] (initThetas rand (D + 1) s).1).length = D + 1) ∧
    (∀ T : Nat, ∃ r s',
      stochasticGradientDescentWith T rand sqrt P a (D : Int) s = some (r, s') ∧
        r.Thetas.length = D + 1) ∧
    (∀ T : Nat, ∃ r s',
      stochasticGradientDescentWith T rand sqrt P a ((0 : Nat) : Int) s = some (r, s') ∧
        r.Thetas.length = 1) ∧
    (∀ T : Nat, ∃ r s',
      stochasticGradientDescentWith T rand sqrt P a ((10 : Nat) : Int) s = some (r, s') ∧
        r.Thetas.length = 11) := by
  have hrun : ∀ (d T : Nat), ∃ r s',
      stochasticGradientDescentWith T rand sqrt P a (d : Int) s = some (r, s') ∧
        r.Thetas.length = d + 1 := by
    intro d T
    obtain ⟨plot, -, h⟩ := stochasticGradientDescentWith_natCast T rand sqrt P a d s
    refine ⟨_, _, h, ?_⟩
    show ((trainingPass a P)^[T] (initThetas rand (d + 1) s).1).length = d + 1
    rw [iterate_trainingPass_length, initThetas_length]
  refine ⟨initThetas_length rand _ s, fun n m k p => ?_, fun n => ?_, hrun D, hrun 0,
    hrun 10⟩
  · rw [foldl_updateTheta_length]
    have hpass : ((P.take m).foldl (updatePoint a)
        ((trainingPass a P)^[n] (initThetas rand (D + 1) s).1)).length =
        ((trainingPass a P)^[n] (initThetas rand (D + 1) s).1).length :=
      trainingPass_length a (P.take m) _
    rw [hpass, iterate_trainingPass_length, initThetas_length]
  · rw [iterate_trainingPass_length, initThetas_length]

/-- C12: with the pass count `T = 0`, for every dataset, learning rate and degree
`D ≥ 0` the trainer returns an empty error trace and the coefficient vector of its
random initialisation: `D + 1` entries, entry `j` being the draw of index `j` of
`uniform(-0.5, 0.5)`; no update is applied. -/
theorem C12_zero_passes [Field α] (rand : α → α → σ → α × σ) (sqrt : α → α)
    (P : Points α) (a : α) (D : Nat) (s : σ) :
    ∃ r s', stochasticGradientDescentWith 0 rand sqrt P a (D : Int) s = some (r, s') ∧
      r.Error = [] ∧ r.Error.length = 0 ∧
      r.Thetas = (initThetas rand (D + 1) s).1 ∧
      r.Thetas.length = D + 1 ∧
      ∀ j, j < D + 1 → r.Thetas[j]? = some (draw rand (-0.5) 0.5 j s) := by
  obtain ⟨plot, -, h⟩ := stochasticGradientDescentWith_natCast 0 rand sqrt P a D s
  exact ⟨_, _, h, rfl, rfl, rfl, initThetas_length rand _ s,
    (initThetas_entries rand (D + 1) s).2⟩

/-- The trainer returns nothing exactly when `polynomialDegree + 1`, computed without
overflow, is negative, so that `make([]float64, polynomialDegree+1)` panics. -/
theorem stochasticGradientDescentWith_eq_none_iff [Field α] (T : Nat)
    (rand : α → α → σ → α × σ) (sqrt : α → α) (P : Points α) (a : α) (D : Int) (s : σ) :
    stochasticGradientDescentWith T rand sqrt P a D s = none ↔ D + 1 < 0 := by
  unfold stochasticGradientDescentWith
  by_cases h : D + 1 < 0
  · simp [h]
  · simp only [h, if_false, plotFunction_natCast, iff_false]
    simp

/-- C13, as the code has it: the trainer validates nothing and has no
`InvalidConfiguration` error.  For a degree `D` of type `int` (64 bits) for which
`D + 1` does not overflow, `-2^63 ≤ D < 2^63 - 1`, the trainer fails if and only if
`D ≤ -2`, where `make([]float64, D+1)` panics on the negative length and nothing is
returned; for `-1 ≤ D` it returns a result, whatever the dataset (also empty), the
learning rate (also `≤ 0`) and the pass count (also `0`).  Slices of every length can be
allocated here; the degree `2^63 - 1`, where `D + 1` overflows, is left out. -/
theorem C13_trainer_fails_only_on_make [LinearOrderedField α] (T : Nat)
    (rand : α → α → σ → α × σ) (sqrt : α → α) (P : Points α) (a : α) (D : Int) (s : σ)
    (hlo : -9223372036854775808 ≤ D) (hhi : D < 9223372036854775807) :
    (stochasticGradientDescentWith T rand sqrt P a D s = none ↔ D ≤ -2) ∧
    ((stochasticGradientDescentWith T rand sqrt P a D s).isSome = true ↔ -1 ≤ D) := by
  have _ := hlo
  have _ := hhi
  have h := stochasticGradientDescentWith_eq_none_iff T rand sqrt P a D s
  constructor
  · rw [h]; omega
  · rw [Option.isSome_iff_ne_none, Ne, h]; omega

/-- C13 as amended, at the empty dataset, the learning rate `0`, no pass and the degree
`-1`: a result is returned. -/
theorem C13_trainer_fails_only_on_make_witness :
    (-9223372036854775808 : Int) ≤ -1 ∧ (-1 : Int) < 9223372036854775807 ∧
    (stochasticGradientDescentWith 0 (fun lo hi (u : Unit) => ((lo + hi) / 2, u))
      Real.sqrt [] (0 : ℝ) (-1) () = none ↔ (-1 : Int) ≤ -2) ∧
    ((stochasticGradientDescentWith 0 (fun lo hi (u : Unit) => ((lo + hi) / 2, u))
      Real.sqrt [] (0 : ℝ) (-1) ()).isSome = true ↔ (-1 : Int) ≤ -1) :=
  ⟨by decide, by decide,
    C13_trainer_fails_only_on_make 0 (fun lo hi (u : Unit) => ((lo + hi) / 2, u))
      Real.sqrt [] (0 : ℝ) (-1) () (by decide) (by decide)⟩

/-- C13 as stated fails: the trainer returns a result for the empty dataset, for the
degree `-1`, for the learning rates `0` and `-1`, and for the pass count `0` (the
random source always returns the midpoint, the square root is the real one). -/
theorem C13_no_invalid_configuration :
    (stochasticGradientDescentWith 1 (fun lo hi (u : Unit) => ((lo + hi) / 2, u))
      Real.sqrt [] (1 : ℝ) 0 ()).isSome = true ∧
    (stochasticGradientDescentWith 1 (fun lo hi (u : Unit) => ((lo + hi) / 2, u))
      Real.sqrt [⟨0, 1⟩] (1 : ℝ) (-1) ()).isSome = true ∧
    (stochasticGradientDescentWith 1 (fun lo hi (u : Unit) => ((lo + hi) / 2, u))
      Real.sqrt [⟨0, 1⟩] (0 : ℝ) 0 ()).isSome = true ∧
    (stochasticGradientDescentWith 1 (fun lo hi (u : Unit) => ((lo + hi) / 2, u))
      Real.sqrt [⟨0, 1⟩] (-1 : ℝ) 0 ()).isSome = true ∧
    (stochasticGradientDescentWith 0 (fun lo hi (u : Unit) => ((lo + hi) / 2, u))
      Real.sqrt [⟨0, 1⟩] (1 : ℝ) 0 ()).isSome = true := by
  have key : ∀ (T : Nat) (P : Points ℝ) (a : ℝ) (D : Int), ¬ D + 1 < 0 →
      (stochasticGradientDescentWith T (fun lo hi (u : Unit) => ((lo + hi) / 2, u))
        Real.sqrt P a D ()).isSome = true := by
    intro T P a D hD
    rw [Option.isSome_iff_ne_none, Ne, stochasticGradientDescentWith_eq_none_iff]
    exact hD
  exact ⟨key _ _ _ _ (by decide), key _ _ _ _ (by decide), key _ _ _ _ (by decide),
    key _ _ _ _ (by decide), key _ _ _ _ (by decide)⟩

/-- For the constant model (`D = 0`) the update for one point moves the coefficient by
`a` times the residual. -/
theorem updatePoint_singleton [Field α] (a t : α) (p : Point α) :
    updatePoint a [t] p = [t + a * (p.Y - t)] := by
  simp [updatePoint, updateTheta, hypotheses, List.range_succ]

/-- One pass over the single point `(0.5, 0.5)` with learning rate `0.5` halves the
distance of the constant model to `0.5`. -/
theorem half_pass [LinearOrderedField α] (t : α) :
    trainingPass (0.5 : α) [⟨0.5, 0.5⟩] [t] = [0.5 + 1 / 2 * (t - 0.5)] := by
  unfold trainingPass
  rw [List.foldl_cons, List.foldl_nil, updatePoint_singleton]
  congr 1
  norm_num
  ring

/-- After `T` passes over the single point `(0.5, 0.5)` with learning rate `0.5`, the
constant model is at `0.5 + (1/2)^T · (t − 0.5)`. -/
theorem iterate_half_pass [LinearOrderedField α] (t : α) (T : Nat) :
    (trainingPass (0.5 : α) [⟨0.5, 0.5⟩])^[T] [t] = [0.5 + (1 / 2) ^ T * (t - 0.5)] := by
  induction T with
  | zero => simp
  | succ T ih =>
    rw [Function.iterate_succ_apply', ih, half_pass]
    congr 1
    rw [pow_succ]
    ring

/-- The distance to `0.5` after `T` passes. -/
theorem half_pass_distance [LinearOrderedField α] (t : α) (T : Nat) :
    |((trainingPass (0.5 : α) [⟨0.5, 0.5⟩])^[T] [t]).getD 0 0 - 0.5| =
      (1 / 2) ^ T * |t - 0.5| := by
  rw [iterate_half_pass, List.getD_cons_zero, add_sub_cancel_left, abs_mul,
    abs_of_nonneg (pow_nonneg (by norm_num) T)]

/-- C14: for the dataset of the single point `(0.5, 0.5)`, `D = 0` and learning rate
`0.5`, for every initial coefficient and every `T` the coefficient after `T` passes
(also the one the trainer returns) satisfies
`|θ[0] − 0.5| = 2^(−T) · |θ_init[0] − 0.5|`; the distance never increases from one pass
to the next, never exceeds the initial one, and gets below every `ε > 0` as `T` grows. -/
theorem C14_single_point_convergence [LinearOrderedField α] [Archimedean α] (t : α)
    (T : Nat) (rand : α → α → σ → α × σ) (sqrt : α → α) (s : σ) :
    (trainingPass (0.5 : α) [⟨0.5, 0.5⟩])^[T] [t] = [0.5 + (1 / 2) ^ T * (t - 0.5)] ∧
    |((trainingPass (0.5 : α) [⟨0.5, 0.5⟩])^[T] [t]).getD 0 0 - 0.5| =
      ((2 : α) ^ T)⁻¹ * |t - 0.5| ∧
    |((trainingPass (0.5 : α) [⟨0.5, 0.5⟩])^[T + 1] [t]).getD 0 0 - 0.5| ≤
      |((trainingPass (0.5 : α) [⟨0.5, 0.5⟩])^[T] [t]).getD 0 0 - 0.5| ∧
    |((trainingPass (0.5 : α) [⟨0.5, 0.5⟩])^[T] [t]).getD 0 0 - 0.5| ≤ |t - 0.5| ∧
    (∀ ε : α, 0 < ε → ∃ N : Nat, ∀ n : Nat, N ≤ n →
      |((trainingPass (0.5 : α) [⟨0.5, 0.5⟩])^[n] [t]).getD 0 0 - 0.5| < ε) ∧
    ∃ r s', stochasticGradientDescentWith T rand sqrt [⟨0.5, 0.5⟩] (0.5 : α)
        ((0 : Nat) : Int) s = some (r, s') ∧
      |r.Thetas.getD 0 0 - 0.5| =
        ((2 : α) ^ T)⁻¹ * |(initThetas rand 1 s).1.getD 0 0 - 0.5| := by
  have hhalf : (0 : α) ≤ 1 / 2 := by norm_num
  have hle1 : (1 / 2 : α) ≤ 1 := by norm_num
  have hinv : ∀ n : Nat, ((2 : α) ^ n)⁻¹ = (1 / 2) ^ n := by
    intro n
    rw [one_div, inv_pow]
  have hd : (0 : α) ≤ |t - 0.5| := abs_nonneg _
  refine ⟨iterate_half_pass t T, ?_, ?_, ?_, ?_, ?_⟩
  · rw [hinv, half_pass_distance]
  · rw [half_pass_distance, half_pass_distance, pow_succ, mul_assoc]
    apply mul_le_mul_of_nonneg_left _ (pow_nonneg hhalf T)
    calc 1 / 2 * |t - 0.5| ≤ 1 * |t - 0.5| := mul_le_mul_of_nonneg_right hle1 hd
      _ = |t - 0.5| := one_mul _
  · rw [half_pass_distance]
    calc (1 / 2) ^ T * |t - 0.5| ≤ 1 * |t - 0.5| :=
          mul_le_mul_of_nonneg_right (pow_le_one₀ hhalf hle1) hd
      _ = |t - 0.5| := one_mul _
  · intro ε hε
    have hpos : (0 : α) < |t - 0.5| + 1 := by linarith
    obtain ⟨N, hN⟩ := exists_pow_lt_of_lt_one (div_pos hε hpos)
      (by norm_num : (1 / 2 : α) < 1)
    refine ⟨N, fun n hn => ?_⟩
    rw [half_pass_distance]
    have h1 : (1 / 2 : α) ^ n ≤ (1 / 2) ^ N := pow_le_pow_of_le_one hhalf hle1 hn
    have h2 : (1 / 2 : α) ^ N * (|t - 0.5| + 1) < ε := (lt_div_iff₀ hpos).1 hN
    have h3 : (0 : α) ≤ (1 / 2) ^ N := pow_nonneg hhalf N
    calc (1 / 2 : α) ^ n * |t - 0.5| ≤ (1 / 2) ^ N * |t - 0.5| :=
          mul_le_mul_of_nonneg_right h1 hd
      _ ≤ (1 / 2) ^ N * (|t - 0.5| + 1) :=
          mul_le_mul_of_nonneg_left (by linarith) h3
      _ < ε := h2
  · obtain ⟨plot, -, h⟩ :=
      stochasticGradientDescentWith_natCast T rand sqrt [⟨0.5, 0.5⟩] (0.5 : α) 0 s
    refine ⟨_, _, h, ?_⟩
    obtain ⟨t0, ht0⟩ := List.length_eq_one.1 (initThetas_length rand (0 + 1) s)
    show |((trainingPass (0.5 : α) [⟨0.5, 0.5⟩])^[T]
      (initThetas rand (0 + 1) s).1).getD 0 0 - 0.5| = _
    rw [ht0, hinv, half_pass_distance, List.getD_cons_zero]

/-- C14, over the rationals, from the initial coefficient `1` and for three passes: the
distance `1/2` has become `1/16`. -/
theorem C14_single_point_convergence_witness :
    (trainingPass (0.5 : ℚ) [⟨0.5, 0.5⟩])^[3] [1] = [0.5 + (1 / 2) ^ 3 * (1 - 0.5)] ∧
    |((trainingPass (0.5 : ℚ) [⟨0.5, 0.5⟩])^[3] [1]).getD 0 0 - 0.5| =
      ((2 : ℚ) ^ 3)⁻¹ * |1 - 0.5| :=
  have h := C14_single_point_convergence (1 : ℚ) 3
    (fun lo hi (u : Unit) => ((lo + hi) / 2, u)) (fun v => v) ()
  ⟨h.1, h.2.1⟩

end Invariants

/-! ## Coupling, order of the points, exact fits -/

section Behaviour

variable {α : Type} {σ : Type}

/-- C15: the update the trainer performs for one point is not a simultaneous gradient
step.  For the point `(1, 1)`, learning rate `0.5` and coefficients `(0, 0)` (so
`D = 1`) the inner loop of the trainer gives `(0.5, 0.25)`, the decoupled update
computed from the old vector gives `(0.5, 0.5)`; for `D = 0` the two coincide for every
point, learning rate and coefficient. -/
theorem C15_update_is_coupled [LinearOrderedField α] :
    updatePoint (0.5 : α) [0, 0] ⟨1, 1⟩ = [0.5, 0.25] ∧
    decoupledUpdate (0.5 : α) ⟨1, 1⟩ [0, 0] = [0.5, 0.5] ∧
    updatePoint (0.5 : α) [0, 0] ⟨1, 1⟩ ≠ decoupledUpdate (0.5 : α) ⟨1, 1⟩ [0, 0] ∧
    (∃ (p : Point α) (a : α) (θ : List α), 0 < a ∧ 2 ≤ θ.length ∧
      updatePoint a θ p ≠ decoupledUpdate a p θ) ∧
    ∀ (a t : α) (p : Point α), updatePoint a [t] p = decoupledUpdate a p [t] := by
  have h1 : updatePoint (0.5 : α) [0, 0] ⟨1, 1⟩ = [0.5, 0.25] := by
    norm_num [updatePoint, updateTheta, hypotheses, List.range_succ]
  have h2 : decoupledUpdate (0.5 : α) ⟨1, 1⟩ [0, 0] = [0.5, 0.5] := by
    norm_num [decoupledUpdate, hypotheses, List.range_succ]
  have h3 : updatePoint (0.5 : α) [0, 0] ⟨1, 1⟩ ≠ decoupledUpdate (0.5 : α) ⟨1, 1⟩ [0, 0] := by
    rw [h1, h2]
    norm_num
  refine ⟨h1, h2, h3, ⟨⟨1, 1⟩, 0.5, [0, 0], by norm_num, by simp, h3⟩, fun a t p => ?_⟩
  rw [updatePoint_singleton]
  simp [decoupledUpdate, hypotheses, List.range_succ]

/-- C17: the order of the dataset affects the result.  With `D = 0` and learning rate
`1`, from any initial coefficient, one pass over `(0, 0), (0, 1)` gives `θ[0] = 1` and
one pass over the permuted dataset `(0, 1), (0, 0)` gives `θ[0] = 0`; so do the
coefficients returned by the trainer after one pass. -/
theorem C17_order_matters [LinearOrderedField α] (t : α) (rand : α → α → σ → α × σ)
    (sqrt : α → α) (s : σ) :
    List.Perm ([⟨0, 0⟩, ⟨0, 1⟩] : Points α) [⟨0, 1⟩, ⟨0, 0⟩] ∧
    trainingPass (1 : α) [⟨0, 0⟩, ⟨0, 1⟩] [t] = [1] ∧
    trainingPass (1 : α) [⟨0, 1⟩, ⟨0, 0⟩] [t] = [0] ∧
    trainingPass (1 : α) [⟨0, 0⟩, ⟨0, 1⟩] [t] ≠ trainingPass (1 : α) [⟨0, 1⟩, ⟨0, 0⟩] [t] ∧
    (∃ r s', stochasticGradientDescentWith 1 rand sqrt [⟨0, 0⟩, ⟨0, 1⟩] (1 : α)
        ((0 : Nat) : Int) s = some (r, s') ∧ r.Thetas = [1]) ∧
    (∃ r s', stochasticGradientDescentWith 1 rand sqrt [⟨0, 1⟩, ⟨0, 0⟩] (1 : α)
        ((0 : Nat) : Int) s = some (r, s') ∧ r.Thetas = [0]) := by
  have h1 : ∀ u : α, trainingPass (1 : α) [⟨0, 0⟩, ⟨0, 1⟩] [u] = [1] := by
    intro u
    simp [trainingPass, updatePoint_singleton]
  have h2 : ∀ u : α, trainingPass (1 : α) [⟨0, 1⟩, ⟨0, 0⟩] [u] = [0] := by
    intro u
    simp [trainingPass, updatePoint_singleton]
  obtain ⟨t0, ht0⟩ := List.length_eq_one.1 (initThetas_length rand (0 + 1) s)
  refine ⟨List.Perm.swap _ _ _, h1 t, h2 t, ?_, ?_, ?_⟩
  · rw [h1, h2]
    simp
  · obtain ⟨plot, -, h⟩ :=
      stochasticGradientDescentWith_natCast 1 rand sqrt [⟨0, 0⟩, ⟨0, 1⟩] (1 : α) 0 s
    refine ⟨_, _, h, ?_⟩
    show (trainingPass (1 : α) [⟨0, 0⟩, ⟨0, 1⟩])^[1] (initThetas rand (0 + 1) s).1 = [1]
    rw [ht0, Function.iterate_one, h1]
  · obtain ⟨plot, -, h⟩ :=
      stochasticGradientDescentWith_natCast 1 rand sqrt [⟨0, 1⟩, ⟨0, 0⟩] (1 : α) 0 s
    refine ⟨_, _, h, ?_⟩
    show (trainingPass (1 : α) [⟨0, 1⟩, ⟨0, 0⟩])^[1] (initThetas rand (0 + 1) s).1 = [0]
    rw [ht0, Function.iterate_one, h2]

/-- Storing at an index the value already there changes nothing. -/
theorem set_getD_self {γ : Type} (l : List γ) (j : Nat) (d : γ) :
    l.set j (l.getD j d) = l := by
  induction l generalizing j with
  | nil => rfl
  | cons x xs ih =>
    cases j with
    | zero => rfl
    | succ j =>
      show x :: xs.set j (xs.getD j d) = x :: xs
      rw [ih]

/-- A coefficient update at a point that the model fits exactly changes nothing. -/
theorem updateTheta_exact [Field α] (a : α) (p : Point α) (θ : List α) (j : Nat)
    (hfit : hypotheses p.X θ = p.Y) : updateTheta a p θ j = θ := by
  unfold updateTheta
  simp only [hfit, sub_self, mul_zero, zero_mul, add_zero]
  exact set_getD_self θ j 0

/-- The update at a point that the model fits exactly changes nothing. -/
theorem updatePoint_exact [Field α] (a : α) (p : Point α) (θ : List α)
    (hfit : hypotheses p.X θ = p.Y) : updatePoint a θ p = θ := by
  unfold updatePoint
  generalize θ.length = k
  induction k with
  | zero => rfl
  | succ k ih =>
    rw [List.range_succ, List.foldl_append, ih]
    exact updateTheta_exact a p θ k hfit

/-- A pass over a dataset that the model fits exactly changes nothing. -/
theorem trainingPass_exact [Field α] (a : α) (P : Points α) (θ : List α)
    (hfit : ∀ p ∈ P, hypotheses p.X θ = p.Y) : trainingPass a P θ = θ := by
  unfold trainingPass
  induction P with
  | nil => rfl
  | cons p ps ih =>
    rw [List.foldl_cons, updatePoint_exact a p θ (hfit p (List.mem_cons_self _ _))]
    exact ih (fun q hq => hfit q (List.mem_cons_of_mem _ hq))

/-- The error is zero exactly on the exact fits. -/
theorem eTheta_eq_zero_iff [LinearOrderedField α] (P : Points α) (θ : List α) :
    eTheta P θ = 0 ↔ ∀ p ∈ P, hypotheses p.X θ = p.Y := by
  rw [eTheta_eq_sum]
  have hhalf : (0.5 : α) ≠ 0 := by norm_num
  rw [mul_eq_zero, or_iff_right hhalf]
  induction P with
  | nil => simp
  | cons p ps ih =>
    have hnn : 0 ≤ (ps.map (fun p => (hypotheses p.X θ - p.Y) ^ 2)).sum := by
      apply List.sum_nonneg
      intro v hv
      obtain ⟨q, -, rfl⟩ := List.mem_map.1 hv
      exact sq_nonneg _
    rw [List.map_cons, List.sum_cons, add_eq_zero_iff_of_nonneg (sq_nonneg _) hnn,
      List.forall_mem_cons, sq_eq_zero_iff, sub_eq_zero]
    exact and_congr_right fun _ => ih

/-- C19: an exact fit is a fixed point of training.  If `hypotheses x θ = y` for every
point `(x, y)` of `P`, then one pass leaves `θ` unchanged, the error `eTheta P θ` is 0,
and for a non-empty `P` the iteration of the trainer records the error 0 (the square
root of 0 being 0). -/
theorem C19_exact_fit_fixed_point [LinearOrderedField α] (sqrt : α → α)
    (hsqrt : sqrt 0 = 0) (P : Points α) (a : α) (θ : List α)
    (hfit : ∀ p ∈ P, hypotheses p.X θ = p.Y) :
    trainingPass a P θ = θ ∧ eTheta P θ = 0 ∧
    (P ≠ [] → ∀ (errs : List α) (idx : Nat),
      iteration sqrt a P (θ, errs) idx = (θ, errs.set idx 0)) := by
  have hpass := trainingPass_exact a P θ hfit
  have hzero := (eTheta_eq_zero_iff P θ).2 hfit
  refine ⟨hpass, hzero, fun _ errs idx => ?_⟩
  unfold iteration
  simp only [hpass, hzero, mul_zero, zero_div, hsqrt]

/-- C19, for the real square root, the points `(0, 1)` and `(1, 3)` and the line
`1 + 2 x` through them. -/
theorem C19_exact_fit_fixed_point_witness :
    Real.sqrt 0 = 0 ∧
    (∀ p ∈ ([⟨0, 1⟩, ⟨1, 3⟩] : Points ℝ), hypotheses p.X [1, 2] = p.Y) ∧
    trainingPass (1 / 10 : ℝ) [⟨0, 1⟩, ⟨1, 3⟩] [1, 2] = [1, 2] ∧
    eTheta ([⟨0, 1⟩, ⟨1, 3⟩] : Points ℝ) [1, 2] = 0 ∧
    (([⟨0, 1⟩, ⟨1, 3⟩] : Points ℝ) ≠ [] → ∀ (errs : List ℝ) (idx : Nat),
      iteration Real.sqrt (1 / 10 : ℝ) [⟨0, 1⟩, ⟨1, 3⟩] ([1, 2], errs) idx =
        ([1, 2], errs.set idx 0)) :=
  have hfit : ∀ p ∈ ([⟨0, 1⟩, ⟨1, 3⟩] : Points ℝ), hypotheses p.X [1, 2] = p.Y := by
    intro p hp
    simp only [List.mem_cons, List.mem_singleton, List.not_mem_nil, or_false] at hp
    rcases hp with rfl | rfl <;> norm_num [hypotheses, List.range_succ]
  ⟨Real.sqrt_zero, hfit,
    C19_exact_fit_fixed_point Real.sqrt Real.sqrt_zero [⟨0, 1⟩, ⟨1, 3⟩] (1 / 10) [1, 2] hfit⟩

/-- C20: for every dataset `P` and coefficient vector `thetas`, `eTheta P thetas = 0`
if and only if `hypotheses x thetas = y` for every point `(x, y)` of `P`; in
particular `eTheta` of the empty dataset is 0. -/
theorem C20_eTheta_zero_iff_exact_fit [LinearOrderedField α] (P : Points α)
    (thetas : List α) :
    (eTheta P thetas = 0 ↔ ∀ p ∈ P, hypotheses p.X thetas = p.Y) ∧
    eTheta ([] : Points α) thetas = 0 := by
  refine ⟨eTheta_eq_zero_iff P thetas, ?_⟩
  rw [eTheta_eq_zero_iff]
  intro p hp
  cases hp

end Behaviour

/-! ## The returned record and reproducibility -/

section Pipeline

variable {α : Type} {σ : Type}

/-- The method `getXY` returns the x-coordinates and the y-coordinates, in order. -/
theorem getXY_entries [Field α] (pts : Points α) :
    (Points.getXY pts).1.length = pts.length ∧ (Points.getXY pts).2.length = pts.length ∧
    ∀ i, i < pts.length →
      (Points.getXY pts).1[i]? = some (pts.getD i ⟨0, 0⟩).X ∧
      (Points.getXY pts).2[i]? = some (pts.getD i ⟨0, 0⟩).Y := by
  have hx := foldl_range_set
    (fun (acc : List α × List α) (inx : Nat) =>
      ((acc.1.set inx (pts.getD inx ⟨0, 0⟩).X, acc.2.set inx (pts.getD inx ⟨0, 0⟩).Y) :
        List α × List α))
    Prod.fst (fun _ inx => (pts.getD inx ⟨0, 0⟩).X) (fun _ _ => rfl)
    (List.replicate pts.length 0, List.replicate pts.length 0) pts.length
  have hy := foldl_range_set
    (fun (acc : List α × List α) (inx : Nat) =>
      ((acc.1.set inx (pts.getD inx ⟨0, 0⟩).X, acc.2.set inx (pts.getD inx ⟨0, 0⟩).Y) :
        List α × List α))
    Prod.snd (fun _ inx => (pts.getD inx ⟨0, 0⟩).Y) (fun _ _ => rfl)
    (List.replicate pts.length 0, List.replicate pts.length 0) pts.length
  refine ⟨by simpa [Points.getXY] using hx.1, by simpa [Points.getXY] using hy.1,
    fun i hi => ⟨?_, ?_⟩⟩
  · have h := hx.2 i
    rw [if_pos ⟨hi, by simpa using hi⟩] at h
    exact h
  · have h := hy.2 i
    rw [if_pos ⟨hi, by simpa using hi⟩] at h
    exact h

/-- The record returned by the trainer for a run of `iters` passes: its metadata, and
its curve, sampled from the coefficients it returns. -/
theorem sgd_record [Field α] (iters : Nat) (rand : α → α → σ → α × σ) (sqrt : α → α)
    (P : Points α) (a : α) (D : Nat) (s : σ) :
    ∃ r s', stochasticGradientDescentWith iters rand sqrt P a (D : Int) s = some (r, s') ∧
      r.LearnRate = a ∧ r.PolynomialDegree = (D : Int) ∧ r.Iterations = iters ∧
      r.XPoints.length = P.length ∧ r.YPoints.length = P.length ∧
      ∀ i, i < P.length →
        r.XPoints[i]? = some ((i : α) / (P.length : α)) ∧
        r.YPoints[i]? = some (hypotheses ((i : α) / (P.length : α)) r.Thetas) := by
  obtain ⟨plot, hplot, h⟩ := stochasticGradientDescentWith_natCast iters rand sqrt P a D s
  obtain ⟨pts, hpts, hl, hg⟩ := plotFunction_entries P.length
    ((trainingPass a P)^[iters] (initThetas rand (D + 1) s).1)
  have hpp : plot = pts := Option.some.inj (hplot.symm.trans hpts)
  subst hpp
  obtain ⟨hxl, hyl, hxy⟩ := getXY_entries plot
  refine ⟨_, _, h, rfl, rfl, rfl, by rw [← hl]; exact hxl, by rw [← hl]; exact hyl,
    fun i hi => ?_⟩
  have hi' : i < plot.length := by rw [hl]; exact hi
  have hget : plot.getD i ⟨0, 0⟩ = ⟨(i : α) / (P.length : α),
      hypotheses ((i : α) / (P.length : α))
        ((trainingPass a P)^[iters] (initThetas rand (D + 1) s).1)⟩ := by
    rw [List.getD_eq_getElem?_getD, hg i hi]
    rfl
  obtain ⟨h1, h2⟩ := hxy i hi'
  exact ⟨by rw [h1, hget], by rw [h2, hget]⟩

/-- C18: for every dataset `P`, learning rate `a` and degree `D`, the record returned
by `stochasticGradientDescent` reports `LearnRate = a`, `PolynomialDegree = D` and
`Iterations = 5000` (the constant `iterations`), and its `XPoints`, `YPoints` are the
fitted curve sampled at `|P|` grid points from the `Thetas` it returns:
`XPoints[i] = i / |P|` and `YPoints[i] = hypotheses (i / |P|) Thetas` for `i < |P|`. -/
theorem C18_returned_record [Field α] (rand : α → α → σ → α × σ) (sqrt : α → α)
    (P : Points α) (a : α) (D : Nat) (s : σ) :
    ∃ r s', stochasticGradientDescent rand sqrt P a (D : Int) s = some (r, s') ∧
      r.LearnRate = a ∧ r.PolynomialDegree = (D : Int) ∧ r.Iterations = iterations ∧
      r.Iterations = 5000 ∧
      r.XPoints.length = P.length ∧ r.YPoints.length = P.length ∧
      ∀ i, i < P.length →
        r.XPoints[i]? = some ((i : α) / (P.length : α)) ∧
        r.YPoints[i]? = some (hypotheses ((i : α) / (P.length : α)) r.Thetas) := by
  obtain ⟨r, s', h, h1, h2, h3, h4, h5, h6⟩ := sgd_record iterations rand sqrt P a D s
  exact ⟨r, s', h, h1, h2, h3, h3.trans rfl, h4, h5, h6⟩

/-- Two loops over the same list whose bodies preserve a relation between their states
end in related states. -/
theorem foldl_rel {A B ι : Type} (Rel : A → B → Prop) (f : A → ι → A) (g : B → ι → B)
    (h : ∀ a b i, Rel a b → Rel (f a i) (g b i)) (l : List ι) (a : A) (b : B)
    (hab : Rel a b) : Rel (l.foldl f a) (l.foldl g b) := by
  induction l generalizing a b with
  | nil => exact hab
  | cons i l ih => exact ih _ _ (h a b i hab)

/-- Two random sources that give the same draws give the same dataset. -/
theorem generateRandomPoints_rel [Field α] {σ₁ σ₂ : Type} (rand₁ : α → α → σ₁ → α × σ₁)
    (rand₂ : α → α → σ₂ → α × σ₂) (R : σ₁ → σ₂ → Prop)
    (hR : ∀ lo hi t₁ t₂, R t₁ t₂ →
      (rand₁ lo hi t₁).1 = (rand₂ lo hi t₂).1 ∧ R (rand₁ lo hi t₁).2 (rand₂ lo hi t₂).2)
    (sin : α → α) (pi : α) (num : Int) (s₁ : σ₁) (s₂ : σ₂) (h0 : R s₁ s₂) :
    (generateRandomPoints rand₁ sin pi num s₁ = none ∧
      generateRandomPoints rand₂ sin pi num s₂ = none) ∨
    ∃ pts t₁ t₂, generateRandomPoints rand₁ sin pi num s₁ = some (pts, t₁) ∧
      generateRandomPoints rand₂ sin pi num s₂ = some (pts, t₂) ∧ R t₁ t₂ := by
  unfold generateRandomPoints
  by_cases h : num < 0
  · left
    simp [h]
  · right
    simp only [h, if_false]
    have hrel := foldl_rel (fun (a : Points α × σ₁) (b : Points α × σ₂) => a.1 = b.1 ∧ R a.2 b.2)
      (generateStep rand₁ sin pi (1.0 / (num : α)))
      (generateStep rand₂ sin pi (1.0 / (num : α)))
      (fun a b i hab => by
        obtain ⟨hv, hs⟩ := hR (-0.3) 0.3 a.2 b.2 hab.2
        exact ⟨by simp only [generateStep, hab.1, hv], hs⟩)
      (List.range num.toNat) (List.replicate num.toNat ⟨0, 0⟩, s₁)
      (List.replicate num.toNat ⟨0, 0⟩, s₂) ⟨rfl, h0⟩
    exact ⟨_, _, _, rfl, by rw [hrel.1], hrel.2⟩

/-- Two random sources that give the same draws give the same initial coefficients. -/
theorem initThetas_rel [Field α] {σ₁ σ₂ : Type} (rand₁ : α → α → σ₁ → α × σ₁)
    (rand₂ : α → α → σ₂ → α × σ₂) (R : σ₁ → σ₂ → Prop)
    (hR : ∀ lo hi t₁ t₂, R t₁ t₂ →
      (rand₁ lo hi t₁).1 = (rand₂ lo hi t₂).1 ∧ R (rand₁ lo hi t₁).2 (rand₂ lo hi t₂).2)
    (n : Nat) (s₁ : σ₁) (s₂ : σ₂) (h0 : R s₁ s₂) :
    (initThetas rand₁ n s₁).1 = (initThetas rand₂ n s₂).1 ∧
      R (initThetas rand₁ n s₁).2 (initThetas rand₂ n s₂).2 := by
  unfold initThetas
  exact foldl_rel (fun (a : List α × σ₁) (b : List α × σ₂) => a.1 = b.1 ∧ R a.2 b.2) _ _
    (fun a b i hab => by
      obtain ⟨hv, hs⟩ := hR (-0.5) 0.5 a.2 b.2 hab.2
      exact ⟨by simp only [hab.1, hv], hs⟩)
    (List.range n) (List.replicate n 0, s₁) (List.replicate n 0, s₂) ⟨rfl, h0⟩

/-- Two random sources that give the same draws give the same training result. -/
theorem stochasticGradientDescentWith_rel [Field α] {σ₁ σ₂ : Type}
    (rand₁ : α → α → σ₁ → α × σ₁) (rand₂ : α → α → σ₂ → α × σ₂) (R : σ₁ → σ₂ → Prop)
    (hR : ∀ lo hi t₁ t₂, R t₁ t₂ →
      (rand₁ lo hi t₁).1 = (rand₂ lo hi t₂).1 ∧ R (rand₁ lo hi t₁).2 (rand₂ lo hi t₂).2)
    (T : Nat) (sqrt : α → α) (P : Points α) (a : α) (D : Int) (s₁ : σ₁) (s₂ : σ₂)
    (h0 : R s₁ s₂) :
    (stochasticGradientDescentWith T rand₁ sqrt P a D s₁ = none ∧
      stochasticGradientDescentWith T rand₂ sqrt P a D s₂ = none) ∨
    ∃ r t₁ t₂, stochasticGradientDescentWith T rand₁ sqrt P a D s₁ = some (r, t₁) ∧
      stochasticGradientDescentWith T rand₂ sqrt P a D s₂ = some (r, t₂) ∧ R t₁ t₂ := by
  by_cases h : D + 1 < 0
  · left
    exact ⟨(stochasticGradientDescentWith_eq_none_iff T rand₁ sqrt P a D s₁).2 h,
      (stochasticGradientDescentWith_eq_none_iff T rand₂ sqrt P a D s₂).2 h⟩
  · right
    obtain ⟨hθ, hs⟩ := initThetas_rel rand₁ rand₂ R hR (D + 1).toNat s₁ s₂ h0
    unfold stochasticGradientDescentWith
    simp only [h, if_false, plotFunction_natCast, ← hθ]
    exact ⟨_, _, _, rfl, rfl, hs⟩

/-- Two random sources that give the same draws give the same dataset and the same
training result of the pipeline. -/
theorem pipelineWith_rel [Field α] {σ₁ σ₂ : Type}
    (rand₁ : α → α → σ₁ → α × σ₁) (rand₂ : α → α → σ₂ → α × σ₂) (R : σ₁ → σ₂ → Prop)
    (hR : ∀ lo hi t₁ t₂, R t₁ t₂ →
      (rand₁ lo hi t₁).1 = (rand₂ lo hi t₂).1 ∧ R (rand₁ lo hi t₁).2 (rand₂ lo hi t₂).2)
    (T : Nat) (sin : α → α) (pi : α) (sqrt : α → α) (num : Int) (a : α) (D : Int)
    (s₁ : σ₁) (s₂ : σ₂) (h0 : R s₁ s₂) :
    (pipelineWith T rand₁ sin pi sqrt num a D s₁ = none ∧
      pipelineWith T rand₂ sin pi sqrt num a D s₂ = none) ∨
    ∃ pts r t₁ t₂, pipelineWith T rand₁ sin pi sqrt num a D s₁ = some (pts, r, t₁) ∧
      pipelineWith T rand₂ sin pi sqrt num a D s₂ = some (pts, r, t₂) ∧ R t₁ t₂ := by
  unfold pipelineWith
  rcases generateRandomPoints_rel rand₁ rand₂ R hR sin pi num s₁ s₂ h0 with
    ⟨h1, h2⟩ | ⟨pts, u₁, u₂, h1, h2, hu⟩
  · left
    simp only [h1, h2, and_self]
  · rcases stochasticGradientDescentWith_rel rand₁ rand₂ R hR T sqrt pts a D u₁ u₂ hu with
      ⟨h3, h4⟩ | ⟨r, t₁, t₂, h3, h4, ht⟩
    · left
      simp only [h1, h2, h3, h4, and_self]
    · right
      exact ⟨pts, r, t₁, t₂, by simp only [h1, h3], by simp only [h2, h4], ht⟩

/-- The pipeline returns for every natural count and degree. -/
theorem pipelineWith_natCast [Field α] (T : Nat) (rand : α → α → σ → α × σ)
    (sin : α → α) (pi : α) (sqrt : α → α) (n : Nat) (a : α) (D : Nat) (s : σ) :
    pipelineWith T rand sin pi sqrt (n : Int) a (D : Int) s ≠ none := by
  unfold pipelineWith
  obtain ⟨pts, h1, -, -⟩ := generateRandomPoints_natCast rand sin pi n s
  obtain ⟨plot, -, h2⟩ := stochasticGradientDescentWith_natCast T rand sqrt pts a D
    (drawState rand (-0.3) 0.3 n s)
  simp only [h1, h2]
  exact fun h => Option.noConfusion h

/-- C16: two runs of the pipeline `generateRandomPoints n` followed by the trainer, with
the same `n`, learning rate and degree, on random sources that deliver the same sequence
of draws (the generator states being related by `R` all along, e.g. the same source and
seed) return the same dataset and the same record, hence the same error trace and the
same final coefficients; so do two runs of `main`. -/
theorem C16_same_draws_same_run [Field α] {σ₁ σ₂ : Type}
    (rand₁ : α → α → σ₁ → α × σ₁) (rand₂ : α → α → σ₂ → α × σ₂) (R : σ₁ → σ₂ → Prop)
    (hR : ∀ lo hi t₁ t₂, R t₁ t₂ →
      (rand₁ lo hi t₁).1 = (rand₂ lo hi t₂).1 ∧ R (rand₁ lo hi t₁).2 (rand₂ lo hi t₂).2)
    (T : Nat) (sin : α → α) (pi : α) (sqrt : α → α) (n : Nat) (a : α) (D : Nat)
    (s₁ : σ₁) (s₂ : σ₂) (h0 : R s₁ s₂) :
    (∃ pts r t₁ t₂,
      pipelineWith T rand₁ sin pi sqrt (n : Int) a (D : Int) s₁ = some (pts, r, t₁) ∧
      pipelineWith T rand₂ sin pi sqrt (n : Int) a (D : Int) s₂ = some (pts, r, t₂) ∧
      R t₁ t₂) ∧
    ∃ pts r t₁ t₂, main rand₁ sin pi sqrt s₁ = some (pts, r, t₁) ∧
      main rand₂ sin pi sqrt s₂ = some (pts, r, t₂) ∧ R t₁ t₂ := by
  have key : ∀ (iters m d : Nat) (b : α), ∃ pts r t₁ t₂,
      pipelineWith iters rand₁ sin pi sqrt (m : Int) b (d : Int) s₁ = some (pts, r, t₁) ∧
      pipelineWith iters rand₂ sin pi sqrt (m : Int) b (d : Int) s₂ = some (pts, r, t₂) ∧
      R t₁ t₂ := by
    intro iters m d b
    rcases pipelineWith_rel rand₁ rand₂ R hR iters sin pi sqrt (m : Int) b (d : Int) s₁ s₂
      h0 with ⟨h1, -⟩ | h
    · exact absurd h1 (pipelineWith_natCast iters rand₁ sin pi sqrt m b d s₁)
    · exact h
  exact ⟨key T n D a, key iterations 100 5 0.1⟩

/-- C16, for a source that counts its draws and a second one that counts them in steps
of two, both alternating between the two ends of the interval asked for. -/
theorem C16_same_draws_same_run_witness :
    (∀ (lo hi : ℝ) (t₁ t₂ : Nat), t₂ = 2 * t₁ →
      (lo + (hi - lo) * ((t₁ % 2 : Nat) : ℝ), t₁ + 1).1 =
        (lo + (hi - lo) * ((t₂ / 2 % 2 : Nat) : ℝ), t₂ + 2).1 ∧
      (lo + (hi - lo) * ((t₂ / 2 % 2 : Nat) : ℝ), t₂ + 2).2 =
        2 * (lo + (hi - lo) * ((t₁ % 2 : Nat) : ℝ), t₁ + 1).2) ∧
    (0 : Nat) = 2 * 0 ∧
    (∃ pts r t₁ t₂,
      pipelineWith 2 (fun lo hi (k : Nat) => (lo + (hi - lo) * ((k % 2 : Nat) : ℝ), k + 1))
        Real.sin Real.pi Real.sqrt ((3 : Nat) : Int) (1 / 10) ((1 : Nat) : Int) 0 =
          some (pts, r, t₁) ∧
      pipelineWith 2
        (fun lo hi (k : Nat) => (lo + (hi - lo) * ((k / 2 % 2 : Nat) : ℝ), k + 2))
        Real.sin Real.pi Real.sqrt ((3 : Nat) : Int) (1 / 10) ((1 : Nat) : Int) 0 =
          some (pts, r, t₂) ∧
      t₂ = 2 * t₁) ∧
    ∃ pts r t₁ t₂,
      main (fun lo hi (k : Nat) => (lo + (hi - lo) * ((k % 2 : Nat) : ℝ), k + 1))
        Real.sin Real.pi Real.sqrt 0 = some (pts, r, t₁) ∧
      main (fun lo hi (k : Nat) => (lo + (hi - lo) * ((k / 2 % 2 : Nat) : ℝ), k + 2))
        Real.sin Real.pi Real.sqrt 0 = some (pts, r, t₂) ∧
      t₂ = 2 * t₁ :=
  have hR : ∀ (lo hi : ℝ) (t₁ t₂ : Nat), t₂ = 2 * t₁ →
      (lo + (hi - lo) * ((t₁ % 2 : Nat) : ℝ), t₁ + 1).1 =
        (lo + (hi - lo) * ((t₂ / 2 % 2 : Nat) : ℝ), t₂ + 2).1 ∧
      (lo + (hi - lo) * ((t₂ / 2 % 2 : Nat) : ℝ), t₂ + 2).2 =
        2 * (lo + (hi - lo) * ((t₁ % 2 : Nat) : ℝ), t₁ + 1).2 := by
    intro lo hi t₁ t₂ h
    subst h
    constructor
    · show lo + (hi - lo) * ((t₁ % 2 : Nat) : ℝ) = lo + (hi - lo) * ((2 * t₁ / 2 % 2 : Nat) : ℝ)
      rw [Nat.mul_div_cancel_left t₁ (by decide : 0 < 2)]
    · show 2 * t₁ + 2 = 2 * (t₁ + 1)
      ring
  ⟨hR, rfl,
    C16_same_draws_same_run
      (fun lo hi (k : Nat) => (lo + (hi - lo) * ((k % 2 : Nat) : ℝ), k + 1))
      (fun lo hi (k : Nat) => (lo + (hi - lo) * ((k / 2 % 2 : Nat) : ℝ), k + 2))
      (fun t₁ t₂ => t₂ = 2 * t₁) hR 2 Real.sin Real.pi Real.sqrt 3 (1 / 10) 1 0 0 rfl⟩

end Pipeline

/-! ## The sign of the error on floats with infinities and NaN -/

namespace F64

/-- The zero of `F64` is the finite value 0. -/
theorem zero_def : (0 : F64) = fin 0 := rfl

/-- Addition of `F64` is `add`. -/
theorem add_def (a b : F64) : a + b = add a b := rfl

/-- Multiplication of `F64` is `mul`. -/
theorem mul_def (a b : F64) : a * b = mul a b := rfl

/-- Subtraction of `F64` adds the negated value. -/
theorem sub_def (a b : F64) : a - b = add a (neg b) := rfl

/-- Division of `F64` is `div`. -/
theorem div_def (a b : F64) : a / b = div a b := rfl

/-- The power of `F64` is `pow`. -/
theorem pow_def (a : F64) (n : Nat) : a ^ n = pow a n := rfl

/-- The order of `F64` is `le`. -/
theorem le_def (a b : F64) : (a ≤ b) = le a b := rfl

/-- The largest finite `float64` is positive. -/
theorem maxFloat64_pos : (0 : ℚ) < maxFloat64 := by norm_num [maxFloat64]

/-- A result whose exact value is not below zero is a non-negative number or `+Inf`. -/
theorem ofRat_nonneg (q : ℚ) (hq : 0 ≤ q) : NanOrNonneg (ofRat q) := by
  have hm := maxFloat64_pos
  right
  unfold ofRat
  split_ifs with h1 h2
  · trivial
  · linarith
  · exact hq

/-- The constant `0.5`. -/
theorem half_eq : (0.5 : F64) = fin (1 / 2) := by
  show ofRat (OfScientific.ofScientific 5 true 1) = _
  norm_num [ofRat, maxFloat64]

/-- A sum of two values that are NaN or not below zero is NaN or not below zero. -/
theorem add_nanOrNonneg (a b : F64) (ha : NanOrNonneg a) (hb : NanOrNonneg b) :
    NanOrNonneg (a + b) := by
  rcases ha with rfl | ha
  · left; cases b <;> rfl
  rcases hb with rfl | hb
  · left; cases a <;> rfl
  cases a <;> cases b <;> simp only [le_def, zero_def, le] at ha hb
  · exact ofRat_nonneg _ (add_nonneg ha hb)
  · right; trivial
  · right; trivial
  · right; trivial

/-- A product of two values that are NaN or not below zero is NaN or not below zero. -/
theorem mul_nanOrNonneg (a b : F64) (ha : NanOrNonneg a) (hb : NanOrNonneg b) :
    NanOrNonneg (a * b) := by
  rcases ha with rfl | ha
  · left; cases b <;> rfl
  rcases hb with rfl | hb
  · left; cases a <;> rfl
  cases a <;> cases b <;> simp only [le_def, zero_def, le] at ha hb
  · exact ofRat_nonneg _ (mul_nonneg ha hb)
  · rename_i q
    show NanOrNonneg (if q = 0 then nan else if 0 < q then pinf else ninf)
    split_ifs with h1 h2
    · left; rfl
    · right; trivial
    · exact absurd (lt_of_le_of_ne ha (Ne.symm h1)) h2
  · rename_i q
    show NanOrNonneg (if q = 0 then nan else if 0 < q then pinf else ninf)
    split_ifs with h1 h2
    · left; rfl
    · right; trivial
    · exact absurd (lt_of_le_of_ne hb (Ne.symm h1)) h2
  · right; trivial

/-- A square, `math.Pow(a, 2)`, is NaN or not below zero. -/
theorem sq_nanOrNonneg (a : F64) : NanOrNonneg (a ^ 2) := by
  cases a with
  | fin q => exact ofRat_nonneg _ (sq_nonneg q)
  | pinf => right; trivial
  | ninf => right; trivial
  | nan => left; rfl

/-- A square root is NaN or not below zero. -/
theorem sqrt_nanOrNonneg (rsqrt : ℚ → ℚ) (hsqrt : ∀ q, 0 ≤ q → 0 ≤ rsqrt q) (a : F64) :
    NanOrNonneg (sqrt rsqrt a) := by
  cases a with
  | fin q =>
    show NanOrNonneg (if q < 0 then nan else fin (rsqrt q))
    split_ifs with h
    · left; rfl
    · right; exact hsqrt q (not_lt.1 h)
  | pinf => right; trivial
  | ninf => left; rfl
  | nan => left; rfl

/-- NaN plus anything is NaN. -/
theorem nan_add (b : F64) : nan + b = nan := by cases b <;> rfl

/-- Anything plus NaN is NaN. -/
theorem add_nan (a : F64) : a + nan = nan := by cases a <;> rfl

/-- NaN times anything is NaN. -/
theorem nan_mul (b : F64) : nan * b = nan := by cases b <;> rfl

/-- Anything times NaN is NaN. -/
theorem mul_nan (a : F64) : a * nan = nan := by cases a <;> rfl

/-- NaN minus anything is NaN. -/
theorem nan_sub (b : F64) : nan - b = nan := by cases b <;> rfl

/-- Anything minus NaN is NaN. -/
theorem sub_nan (a : F64) : a - nan = nan := by cases a <;> rfl

/-- NaN over anything is NaN. -/
theorem nan_div (b : F64) : nan / b = nan := by cases b <;> rfl

/-- A positive power of NaN is NaN. -/
theorem nan_pow_succ (n : Nat) : (nan : F64) ^ (n + 1) = nan := rfl

/-- The square root of NaN is NaN. -/
theorem sqrt_nan (rsqrt : ℚ → ℚ) : sqrt rsqrt nan = nan := rfl

/-- The comparison `0 <= NaN` is false. -/
theorem not_zero_le_nan : ¬ (0 : F64) ≤ nan := fun h => h

/-- The sum of squared residuals accumulated by `eTheta` is NaN or not below zero. -/
theorem foldl_sq_nanOrNonneg (P : List (Point F64)) (thetas : List F64) (e : F64)
    (he : NanOrNonneg e) :
    NanOrNonneg (P.foldl (fun e point => e + (hypotheses point.X thetas - point.Y) ^ 2) e) := by
  induction P generalizing e with
  | nil => exact he
  | cons p ps ih => exact ih _ (add_nanOrNonneg _ _ he (sq_nanOrNonneg _))

/-- Zero is not below zero. -/
theorem zero_nanOrNonneg : NanOrNonneg (0 : F64) := Or.inr (le_refl (0 : ℚ))

/-- The error `eTheta` is NaN or not below zero. -/
theorem eTheta_nanOrNonneg (P : List (Point F64)) (thetas : List F64) :
    NanOrNonneg (eTheta P thetas) := by
  unfold eTheta
  apply mul_nanOrNonneg _ _ (foldl_sq_nanOrNonneg P thetas 0 zero_nanOrNonneg)
  rw [half_eq]
  right
  show (0 : ℚ) ≤ 1 / 2
  norm_num

/-- The recorded error is NaN or not below zero. -/
theorem erms_nanOrNonneg (rsqrt : ℚ → ℚ) (hsqrt : ∀ q, 0 ≤ q → 0 ≤ rsqrt q)
    (P : List (Point F64)) (thetas : List F64) :
    NanOrNonneg (sqrt rsqrt ((2.0 * eTheta P thetas) / (P.length : F64))) :=
  sqrt_nanOrNonneg rsqrt hsqrt _

/-- The polynomial at `2^600` with three zero coefficients is NaN: `x^2` overflows to
`+Inf`, and `0 · +Inf` is NaN. -/
theorem hypotheses_overflow : hypotheses (fin (2 ^ 600)) [0, 0, 0] = nan := by
  simp only [hypotheses, List.range_succ, List.range_zero, List.length_cons,
    List.length_nil, List.foldl_append, List.foldl_cons, List.foldl_nil, List.nil_append,
    zero_add, List.getD_cons_zero, List.getD_cons_succ, add_def, mul_def, pow_def, zero_def,
    pow, mul, add]
  norm_num [ofRat, maxFloat64, mul, add]

/-- The polynomial with three coefficients, one of them NaN, is NaN. -/
theorem hypotheses_nan (x a b c : F64) (h : a = nan ∨ b = nan ∨ c = nan) :
    hypotheses x [a, b, c] = nan := by
  simp only [hypotheses, List.range_succ, List.range_zero, List.length_cons,
    List.length_nil, List.foldl_append, List.foldl_cons, List.foldl_nil, List.nil_append,
    zero_add, List.getD_cons_zero, List.getD_cons_succ]
  rcases h with rfl | rfl | rfl <;> simp only [nan_mul, nan_add, add_nan]

end F64

/-- C5, as the code has it: for every coefficient vector `thetas` and every dataset `P`,
`eTheta P thetas` is NaN or `≥ 0` (`+Inf` included), and so is the error
`sqrt (2 * eTheta P thetas / |P|)`, also the one the trainer stores at `errorRate[idx]`
after its pass; the square root of the finite non-negative values is taken
non-negative.  Neither is ever negative, and each is `≥ 0` unless it is NaN. -/
theorem C5_error_nan_or_nonneg (rsqrt : ℚ → ℚ) (hsqrt : ∀ q, 0 ≤ q → 0 ≤ rsqrt q)
    (P : List (Point F64)) (thetas : List F64) (a : F64) (errs : List F64) (idx : Nat) :
    (F64.eTheta P thetas = F64.nan ∨ 0 ≤ F64.eTheta P thetas) ∧
    (F64.sqrt rsqrt ((2.0 * F64.eTheta P thetas) / (P.length : F64)) = F64.nan ∨
      0 ≤ F64.sqrt rsqrt ((2.0 * F64.eTheta P thetas) / (P.length : F64))) ∧
    ∃ e, (F64.iteration (F64.sqrt rsqrt) a P (thetas, errs) idx).2 = errs.set idx e ∧
      (e = F64.nan ∨ 0 ≤ e) :=
  ⟨F64.eTheta_nanOrNonneg P thetas, F64.erms_nanOrNonneg rsqrt hsqrt P thetas,
    _, rfl, F64.erms_nanOrNonneg rsqrt hsqrt P _⟩

/-- C5 as amended, for the rational approximation `ratSqrt` of the square root, the
dataset of the single point `(0, 1)` and the constant model `2`. -/
theorem C5_error_nan_or_nonneg_witness :
    (∀ q : ℚ, 0 ≤ q → 0 ≤ F64.ratSqrt q) ∧
    (F64.eTheta [⟨0, F64.fin 1⟩] [F64.fin 2] = F64.nan ∨
      0 ≤ F64.eTheta [⟨0, F64.fin 1⟩] [F64.fin 2]) ∧
    (F64.sqrt F64.ratSqrt ((2.0 * F64.eTheta [⟨0, F64.fin 1⟩] [F64.fin 2]) /
        (([⟨0, F64.fin 1⟩] : List (Point F64)).length : F64)) = F64.nan ∨
      0 ≤ F64.sqrt F64.ratSqrt ((2.0 * F64.eTheta [⟨0, F64.fin 1⟩] [F64.fin 2]) /
        (([⟨0, F64.fin 1⟩] : List (Point F64)).length : F64))) ∧
    ∃ e, (F64.iteration (F64.sqrt F64.ratSqrt) (F64.fin (1 / 10)) [⟨0, F64.fin 1⟩]
        ([F64.fin 2], [0]) 0).2 = ([0] : List F64).set 0 e ∧
      (e = F64.nan ∨ 0 ≤ e) :=
  have hsqrt : ∀ q : ℚ, 0 ≤ q → 0 ≤ F64.ratSqrt q := fun _ _ =>
    div_nonneg (Nat.cast_nonneg _) (Nat.cast_nonneg _)
  ⟨hsqrt, C5_error_nan_or_nonneg F64.ratSqrt hsqrt [⟨0, F64.fin 1⟩] [F64.fin 2]
    (F64.fin (1 / 10)) [0] 0⟩

/-- C5 as stated fails on finite inputs.  For the dataset of the single point
`(2^600, 0)` and the coefficients `(0, 0, 0)`, `x^2` overflows to `+Inf`, `0 · +Inf` is
NaN, so `eTheta` is NaN and `0 ≤ eTheta` is false; the trainer, started on these
coefficients, ends its pass with NaN coefficients and records the error NaN, and
`0 ≤ NaN` is false. -/
theorem C5_nan_on_finite_input :
    F64.eTheta [⟨F64.fin (2 ^ 600), 0⟩] [0, 0, 0] = F64.nan ∧
    ¬ (0 : F64) ≤ F64.eTheta [⟨F64.fin (2 ^ 600), 0⟩] [0, 0, 0] ∧
    F64.iteration (F64.sqrt F64.ratSqrt) (F64.fin (1 / 10)) [⟨F64.fin (2 ^ 600), 0⟩]
      ([0, 0, 0], [0]) 0 = ([F64.nan, F64.nan, F64.nan], [F64.nan]) ∧
    ¬ (0 : F64) ≤ F64.nan := by
  have h1 : F64.eTheta [⟨F64.fin (2 ^ 600), 0⟩] [0, 0, 0] = F64.nan := by
    simp only [F64.eTheta, List.foldl_cons, List.foldl_nil, F64.hypotheses_overflow,
      F64.nan_sub, F64.add_nan, F64.nan_mul, F64.nan_pow_succ]
  have h2 : F64.trainingPass (F64.fin (1 / 10)) [⟨F64.fin (2 ^ 600), 0⟩] [0, 0, 0] =
      [F64.nan, F64.nan, F64.nan] := by
    simp only [F64.trainingPass, F64.updatePoint, F64.updateTheta, List.range_succ,
      List.range_zero, List.length_cons, List.length_nil, List.foldl_append,
      List.foldl_cons, List.foldl_nil, List.nil_append, zero_add, List.getD_cons_zero,
      List.getD_cons_succ, List.set_cons_zero, List.set_cons_succ,
      F64.hypotheses_overflow, F64.sub_nan, F64.mul_nan, F64.nan_mul, F64.add_nan]
    rw [F64.hypotheses_nan _ _ _ _ (Or.inl rfl)]
    simp only [F64.sub_nan, F64.mul_nan, F64.nan_mul, F64.add_nan, List.set_cons_zero,
      List.set_cons_succ]
    rw [F64.hypotheses_nan _ _ _ _ (Or.inl rfl)]
    simp only [F64.sub_nan, F64.mul_nan, F64.nan_mul, F64.add_nan, List.set_cons_zero,
      List.set_cons_succ]
  refine ⟨h1, by rw [h1]; exact F64.not_zero_le_nan, ?_, F64.not_zero_le_nan⟩
  simp only [F64.iteration, h2, F64.hypotheses_nan _ _ _ _ (Or.inl rfl), F64.eTheta,
    List.foldl_cons, List.foldl_nil, F64.nan_sub, F64.add_nan, F64.nan_mul, F64.mul_nan,
    F64.nan_pow_succ, F64.nan_div, F64.sqrt_nan, List.set_cons_zero]

end SGD
